import Mathlib

/-!
Verification of the `tools/generate-icons-db.mjs` script of the
dragonbane-foundry-add-on repository, against its natural-language
specification.  The script loads Foundry `.db` pack files (JSON array or
newline-delimited JSON), classifies each record as a spell or an item
category, builds an image-generation prompt, calls a self-hosted
image endpoint, writes icon files and rewrites the record `img` fields.

The development shallowly embeds the script: JSON values are modelled by
the `Json` inductive; `JSON.parse` / `JSON.stringify` are modelled by an
executable fuel-based parser `parseVal` and a compact serializer
`serializeV` (numbers are restricted to integers, which covers every
numeric literal the packs use); the Node filesystem is modelled by an
existence predicate plus explicit effect lists; the driver loop
`processPackFile` is a pure state-passing function.
-/

set_option maxRecDepth 6000

namespace DragonbaneIcons

/-! ## Character utilities -/

/-- Whitespace accepted by the JSON grammar (what `JSON.parse` skips). -/
def isJsonWs (c : Char) : Bool :=
  c = ' ' || c = '\t' || c = '\n' || c = '\r'

/-- Whitespace removed by JS `String.prototype.trim` (the code points the
pack files can actually contain). -/
def isTrimWs (c : Char) : Bool :=
  c = ' ' || c = '\t' || c = '\n' || c = '\r' || c = '\x0B' || c = '\x0C'

/-- ASCII decimal digit test. -/
def isDigitC (c : Char) : Bool := '0' ≤ c && c ≤ '9'

/-- Character for the decimal digit `d`. -/
def digitChar (d : Nat) : Char := Char.ofNat (48 + d)

/-- Lowercase hexadecimal digit character for `n < 16`. -/
def hexDigitChar (n : Nat) : Char :=
  if n < 10 then Char.ofNat (48 + n) else Char.ofNat (87 + n)

/-- Numeric value of a hexadecimal digit character. -/
def hexDigVal (c : Char) : Option Nat :=
  if '0' ≤ c ∧ c ≤ '9' then some (c.toNat - 48)
  else if 'a' ≤ c ∧ c ≤ 'f' then some (c.toNat - 87)
  else if 'A' ≤ c ∧ c ≤ 'F' then some (c.toNat - 55)
  else none

/-- Drop leading JS-trim whitespace. -/
def trimLeftCs (cs : List Char) : List Char := cs.dropWhile isTrimWs

/-- Drop trailing JS-trim whitespace. -/
def trimRightCs (cs : List Char) : List Char :=
  (cs.reverse.dropWhile isTrimWs).reverse

/-- Model of JS `String.prototype.trim` on character lists. -/
def trimCs (cs : List Char) : List Char := trimRightCs (trimLeftCs cs)

/-- Split a character list at every occurrence of the separator character.
Always returns at least one (possibly empty) piece. -/
def splitOnChar (sep : Char) : List Char → List (List Char)
  | [] => [[]]
  | c :: r =>
    if c = sep then [] :: splitOnChar sep r
    else
      match splitOnChar sep r with
      | [] => [[c]]
      | l :: ls => (c :: l) :: ls

/-- Remove one trailing carriage return, as the `/\r?\n/` split separator
consumes a `\r` immediately preceding the `\n`. -/
def dropTrailingCR (l : List Char) : List Char :=
  match l.reverse with
  | c :: r => if c = '\r' then r.reverse else l
  | [] => l

/-- Model of splitting file content on `/\r?\n/`. -/
def splitLines (cs : List Char) : List (List Char) :=
  (splitOnChar '\n' cs).map dropTrailingCR

/-- Decides whether `pat` is a prefix of `cs` (plain Bool recursion so that
proofs can unfold it). -/
def isPre : List Char → List Char → Bool
  | [], _ => true
  | _ :: _, [] => false
  | a :: as, b :: bs => a = b && isPre as bs

/-- Decides whether `pat` occurs as a contiguous substring of `hay`
(model of JS `String.prototype.includes` / a plain-word regex test). -/
def hasSub (pat : List Char) : List Char → Bool
  | [] => isPre pat []
  | c :: t => isPre pat (c :: t) || hasSub pat t

/-- Substring test on strings. -/
def strHasSub (hay pat : String) : Bool := hasSub pat.data hay.data

/-- Model of JS `String.prototype.toLowerCase` on the ASCII fragment
(maps `A`-`Z` to `a`-`z`, the only case the pack data exercises). -/
def toLowerStr (s : String) : String := String.mk (s.data.map Char.toLower)

/-! ## JSON values

Model of the JavaScript values the script manipulates.  Numbers are
restricted to integers: every numeric field in the packs is an integer
literal, and the claims do not turn on float formatting. -/

inductive Json where
  | null : Json
  | bool (b : Bool) : Json
  | num (i : Int) : Json
  | str (s : String) : Json
  | arr (l : List Json) : Json
  | obj (m : List (String × Json)) : Json

mutual
/-- Boolean structural equality on `Json`. -/
def beqJson : Json → Json → Bool
  | .null, .null => true
  | .bool a, .bool b => a = b
  | .num a, .num b => a = b
  | .str a, .str b => a = b
  | .arr a, .arr b => beqJsonList a b
  | .obj a, .obj b => beqJsonMembers a b
  | _, _ => false
/-- Boolean equality on lists of `Json`. -/
def beqJsonList : List Json → List Json → Bool
  | [], [] => true
  | a :: as, b :: bs => beqJson a b && beqJsonList as bs
  | _, _ => false
/-- Boolean equality on association lists of `Json`. -/
def beqJsonMembers : List (String × Json) → List (String × Json) → Bool
  | [], [] => true
  | (k1, v1) :: as, (k2, v2) :: bs => k1 = k2 && beqJson v1 v2 && beqJsonMembers as bs
  | _, _ => false
end

mutual
theorem beqJson_iff : ∀ a b : Json, beqJson a b = true ↔ a = b
  | .null, .null => by simp [beqJson]
  | .null, .bool _ => by simp [beqJson]
  | .null, .num _ => by simp [beqJson]
  | .null, .str _ => by simp [beqJson]
  | .null, .arr _ => by simp [beqJson]
  | .null, .obj _ => by simp [beqJson]
  | .bool _, .null => by simp [beqJson]
  | .bool _, .bool _ => by simp [beqJson]
  | .bool _, .num _ => by simp [beqJson]
  | .bool _, .str _ => by simp [beqJson]
  | .bool _, .arr _ => by simp [beqJson]
  | .bool _, .obj _ => by simp [beqJson]
  | .num _, .null => by simp [beqJson]
  | .num _, .bool _ => by simp [beqJson]
  | .num _, .num _ => by simp [beqJson]
  | .num _, .str _ => by simp [beqJson]
  | .num _, .arr _ => by simp [beqJson]
  | .num _, .obj _ => by simp [beqJson]
  | .str _, .null => by simp [beqJson]
  | .str _, .bool _ => by simp [beqJson]
  | .str _, .num _ => by simp [beqJson]
  | .str _, .str _ => by simp [beqJson]
  | .str _, .arr _ => by simp [beqJson]
  | .str _, .obj _ => by simp [beqJson]
  | .arr _, .null => by simp [beqJson]
  | .arr _, .bool _ => by simp [beqJson]
  | .arr _, .num _ => by simp [beqJson]
  | .arr _, .str _ => by simp [beqJson]
  | .arr a, .arr b => by simpa [beqJson] using beqJsonList_iff a b
  | .arr _, .obj _ => by simp [beqJson]
  | .obj _, .null => by simp [beqJson]
  | .obj _, .bool _ => by simp [beqJson]
  | .obj _, .num _ => by simp [beqJson]
  | .obj _, .str _ => by simp [beqJson]
  | .obj _, .arr _ => by simp [beqJson]
  | .obj a, .obj b => by simpa [beqJson] using beqJsonMembers_iff a b
theorem beqJsonList_iff : ∀ a b : List Json, beqJsonList a b = true ↔ a = b
  | [], [] => by simp [beqJsonList]
  | [], _ :: _ => by simp [beqJsonList]
  | _ :: _, [] => by simp [beqJsonList]
  | a :: as, b :: bs => by
      simp [beqJsonList, Bool.and_eq_true, beqJson_iff a b, beqJsonList_iff as bs]
theorem beqJsonMembers_iff : ∀ a b : List (String × Json), beqJsonMembers a b = true ↔ a = b
  | [], [] => by simp [beqJsonMembers]
  | [], _ :: _ => by simp [beqJsonMembers]
  | _ :: _, [] => by simp [beqJsonMembers]
  | (k1, v1) :: as, (k2, v2) :: bs => by
      simp [beqJsonMembers, Bool.and_eq_true, beqJson_iff v1 v2, beqJsonMembers_iff as bs]
end

instance : DecidableEq Json := fun a b => decidable_of_iff _ (beqJson_iff a b)

/-! ## Serialization (model of compact `JSON.stringify`) -/

/-- Escape of one character inside a JSON string literal, exactly as
`JSON.stringify` emits it. -/
def escChar (c : Char) : List Char :=
  if c = '"' then ['\\', '"']
  else if c = '\\' then ['\\', '\\']
  else if c = '\x08' then ['\\', 'b']
  else if c = '\x0C' then ['\\', 'f']
  else if c = '\n' then ['\\', 'n']
  else if c = '\r' then ['\\', 'r']
  else if c = '\t' then ['\\', 't']
  else if c.toNat < 32 then
    ['\\', 'u', '0', '0', hexDigitChar (c.toNat / 16), hexDigitChar (c.toNat % 16)]
  else [c]

/-- Escape of a whole string body. -/
def escList : List Char → List Char
  | [] => []
  | c :: r => escChar c ++ escList r

/-- Little-endian decimal digits of `n`, by structural fuel recursion so
that proof terms evaluate; agrees with `Nat.digits 10` (proved below). -/
def natDigitsRev : Nat → Nat → List Nat
  | 0, _ => []
  | _ + 1, 0 => []
  | f + 1, n + 1 => ((n + 1) % 10) :: natDigitsRev f ((n + 1) / 10)

/-- Decimal digits of a natural number, most significant first. -/
def serNat (n : Nat) : List Char :=
  if n = 0 then ['0'] else ((natDigitsRev n n).reverse.map digitChar)

/-- Decimal rendering of an integer, as `JSON.stringify` prints it. -/
def serInt (i : Int) : List Char :=
  if i < 0 then '-' :: serNat (-i).toNat else serNat i.toNat

mutual
/-- Compact serialization of a JSON value (model of `JSON.stringify(v)`,
which equals `JSON.stringify(v, null, 0)`). -/
def serializeV : Json → List Char
  | .null => ['n', 'u', 'l', 'l']
  | .bool true => 't' :: ['r', 'u', 'e']
  | .bool false => 'f' :: ['a', 'l', 's', 'e']
  | .num i => serInt i
  | .str s => '"' :: escList s.data ++ ['"']
  | .arr l => '[' :: serElemsV l ++ [']']
  | .obj m => '\x7b' :: serMembersV m ++ ['\x7d']
/-- Comma-joined serialization of array elements. -/
def serElemsV : List Json → List Char
  | [] => []
  | [a] => serializeV a
  | a :: b :: rest => serializeV a ++ ',' :: serElemsV (b :: rest)
/-- Comma-joined serialization of object members. -/
def serMembersV : List (String × Json) → List Char
  | [] => []
  | [(k, v)] => '"' :: escList k.data ++ '"' :: ':' :: serializeV v
  | (k, v) :: m :: rest =>
      ('"' :: escList k.data ++ '"' :: ':' :: serializeV v) ++ ',' :: serMembersV (m :: rest)
end

/-! ## Parsing (model of `JSON.parse`) -/

/-- Value of one escape code after a backslash (other than `\uXXXX`). -/
def escDecode (e : Char) : Option Char :=
  if e = '"' then some '"'
  else if e = '\\' then some '\\'
  else if e = '/' then some '/'
  else if e = 'b' then some '\x08'
  else if e = 'f' then some '\x0C'
  else if e = 'n' then some '\n'
  else if e = 'r' then some '\r'
  else if e = 't' then some '\t'
  else none

/-- Parse the body of a JSON string after the opening quote; returns the
decoded characters and the input after the closing quote. -/
def parseStrAux : List Char → Option (List Char × List Char)
  | [] => none
  | c :: r =>
    if c = '"' then some ([], r)
    else if c = '\\' then
      match r with
      | 'u' :: h1 :: h2 :: h3 :: h4 :: r2 =>
        match hexDigVal h1, hexDigVal h2, hexDigVal h3, hexDigVal h4 with
        | some a, some b, some g, some d =>
          (parseStrAux r2).map (fun pr => (Char.ofNat (((a * 16 + b) * 16 + g) * 16 + d) :: pr.1, pr.2))
        | _, _, _, _ => none
      | e :: r2 =>
        match escDecode e with
        | some d => (parseStrAux r2).map (fun pr => (d :: pr.1, pr.2))
        | none => none
      | [] => none
    else (parseStrAux r).map (fun pr => (c :: pr.1, pr.2))

/-- Numeric value of a digit run, most significant first. -/
def digitsVal (ds : List Char) : Nat :=
  ds.foldl (fun a c => a * 10 + (c.toNat - 48)) 0

/-- Parse an integer literal (optional minus sign, one or more digits). -/
def parseNum (cs : List Char) : Option (Int × List Char) :=
  match cs with
  | [] => none
  | c :: r =>
    if c = '-' then
      if r.takeWhile isDigitC = [] then none
      else some (-(digitsVal (r.takeWhile isDigitC) : Int), r.dropWhile isDigitC)
    else
      if (c :: r).takeWhile isDigitC = [] then none
      else some ((digitsVal ((c :: r).takeWhile isDigitC) : Int), (c :: r).dropWhile isDigitC)

/-- Skip JSON whitespace. -/
def skipWs (cs : List Char) : List Char := cs.dropWhile isJsonWs

/-- Match an exact literal and return the remainder. -/
def expectLit (lit cs : List Char) : Option (List Char) :=
  if isPre lit cs then some (cs.drop lit.length) else none

mutual
/-- Fuel-based recursive-descent JSON value parser. -/
def parseVal : Nat → List Char → Option (Json × List Char)
  | 0, _ => none
  | f + 1, cs =>
    match skipWs cs with
    | [] => none
    | c :: r =>
      if c = 'n' then (expectLit ['u', 'l', 'l'] r).map (fun r2 => (Json.null, r2))
      else if c = 't' then (expectLit ['r', 'u', 'e'] r).map (fun r2 => (Json.bool true, r2))
      else if c = 'f' then (expectLit ['a', 'l', 's', 'e'] r).map (fun r2 => (Json.bool false, r2))
      else if c = '"' then (parseStrAux r).map (fun pr => (Json.str (String.mk pr.1), pr.2))
      else if c = '[' then
        match skipWs r with
        | [] => none
        | c2 :: r2 =>
          if c2 = ']' then some (Json.arr [], r2)
          else parseElems f (c2 :: r2)
      else if c = '\x7b' then
        match skipWs r with
        | [] => none
        | c2 :: r2 =>
          if c2 = '\x7d' then some (Json.obj [], r2)
          else parseMembers f (c2 :: r2)
      else if c = '-' || isDigitC c then
        (parseNum (c :: r)).map (fun pr => (Json.num pr.1, pr.2))
      else none
/-- Parse the non-empty element list of a JSON array, including the
closing bracket. -/
def parseElems : Nat → List Char → Option (Json × List Char)
  | 0, _ => none
  | f + 1, cs =>
    match parseVal f cs with
    | none => none
    | some (v, r) =>
      match skipWs r with
      | [] => none
      | c :: r2 =>
        if c = ',' then
          match parseElems f r2 with
          | some (Json.arr l, r3) => some (Json.arr (v :: l), r3)
          | _ => none
        else if c = ']' then some (Json.arr [v], r2)
        else none
/-- Parse the non-empty member list of a JSON object, including the
closing brace. -/
def parseMembers : Nat → List Char → Option (Json × List Char)
  | 0, _ => none
  | f + 1, cs =>
    match skipWs cs with
    | [] => none
    | c :: r =>
      if c = '"' then
        match parseStrAux r with
        | none => none
        | some (k, r2) =>
          match skipWs r2 with
          | [] => none
          | c2 :: r3 =>
            if c2 = ':' then
              match parseVal f r3 with
              | none => none
              | some (v, r4) =>
                match skipWs r4 with
                | [] => none
                | c3 :: r5 =>
                  if c3 = ',' then
                    match parseMembers f r5 with
                    | some (Json.obj m, r6) => some (Json.obj ((String.mk k, v) :: m), r6)
                    | _ => none
                  else if c3 = '\x7d' then some (Json.obj [(String.mk k, v)], r5)
                  else none
            else none
      else none
end

/-- Model of `JSON.parse` on a whole character list: parse one value,
then require only whitespace to remain. -/
def jsonParse (cs : List Char) : Option Json :=
  match parseVal (cs.length + 1) cs with
  | some (j, rest) => if skipWs rest = [] then some j else none
  | none => none

/-! ## Round-trip: parsing a compact serialization recovers the value -/

/-- Input positions at which a serialized value may legally stop: end of
input or one of the closing delimiters the serializer emits next. -/
def delimB : List Char → Bool
  | [] => true
  | c :: _ => c = ',' || c = ']' || c = '\x7d'

theorem hexDigVal_hexDigitChar : ∀ n, n < 16 → hexDigVal (hexDigitChar n) = some n := by decide

theorem digitChar_props : ∀ d, d < 10 →
    isDigitC (digitChar d) = true ∧ isJsonWs (digitChar d) = false ∧
    isTrimWs (digitChar d) = false ∧ digitChar d ≠ 'n' ∧ digitChar d ≠ 't' ∧
    digitChar d ≠ 'f' ∧ digitChar d ≠ '"' ∧ digitChar d ≠ '[' ∧
    digitChar d ≠ '\x7b' ∧ digitChar d ≠ ',' ∧ digitChar d ≠ ']' ∧
    digitChar d ≠ '\x7d' ∧ digitChar d ≠ '\n' ∧ digitChar d ≠ '\r' ∧
    digitChar d ≠ '-' ∧ (digitChar d).toNat = 48 + d := by decide

theorem escChar_no_newline : ∀ d, ∀ c ∈ escChar d, c ≠ '\n' ∧ c ≠ '\r' := by
  intro d c hc
  unfold escChar at hc
  split_ifs at hc with h1 h2 h3 h4 h5 h6 h7 h8
  · simp only [List.mem_cons, List.not_mem_nil, or_false] at hc
    rcases hc with rfl | rfl <;> exact ⟨by decide, by decide⟩
  · simp only [List.mem_cons, List.not_mem_nil, or_false] at hc
    rcases hc with rfl | rfl <;> exact ⟨by decide, by decide⟩
  · simp only [List.mem_cons, List.not_mem_nil, or_false] at hc
    rcases hc with rfl | rfl <;> exact ⟨by decide, by decide⟩
  · simp only [List.mem_cons, List.not_mem_nil, or_false] at hc
    rcases hc with rfl | rfl <;> exact ⟨by decide, by decide⟩
  · simp only [List.mem_cons, List.not_mem_nil, or_false] at hc
    rcases hc with rfl | rfl <;> exact ⟨by decide, by decide⟩
  · simp only [List.mem_cons, List.not_mem_nil, or_false] at hc
    rcases hc with rfl | rfl <;> exact ⟨by decide, by decide⟩
  · simp only [List.mem_cons, List.not_mem_nil, or_false] at hc
    rcases hc with rfl | rfl <;> exact ⟨by decide, by decide⟩
  · have hhi : d.toNat / 16 < 16 := by omega
    have hlo : d.toNat % 16 < 16 := by omega
    have hx : ∀ n, n < 16 → hexDigitChar n ≠ '\n' ∧ hexDigitChar n ≠ '\r' := by decide
    simp only [List.mem_cons, List.not_mem_nil, or_false] at hc
    rcases hc with rfl | rfl | rfl | rfl | rfl | rfl
    · exact ⟨by decide, by decide⟩
    · exact ⟨by decide, by decide⟩
    · exact ⟨by decide, by decide⟩
    · exact ⟨by decide, by decide⟩
    · exact hx _ hhi
    · exact hx _ hlo
  · simp only [List.mem_cons, List.not_mem_nil, or_false] at hc
    subst hc
    refine ⟨fun h => ?_, fun h => ?_⟩
    · subst h; exact h8 (by decide)
    · subst h; exact h8 (by decide)

theorem escList_no_newline : ∀ s : List Char, ∀ c ∈ escList s, c ≠ '\n' ∧ c ≠ '\r'
  | [], c, hc => by simp [escList] at hc
  | d :: t, c, hc => by
    simp only [escList, List.mem_append] at hc
    rcases hc with h | h
    · exact escChar_no_newline d c h
    · exact escList_no_newline t c h

theorem parseStrAux_escList : ∀ (s rest : List Char),
    parseStrAux (escList s ++ '"' :: rest) = some (s, rest)
  | [], rest => by
    show parseStrAux ([] ++ '"' :: rest) = _
    rw [List.nil_append, parseStrAux.eq_def]
    simp
  | c :: t, rest => by
    have ih := parseStrAux_escList t rest
    show parseStrAux ((escChar c ++ escList t) ++ '"' :: rest) = _
    rw [List.append_assoc]
    by_cases h1 : c = '"'
    · subst h1
      rw [show escChar '"' = ['\\', '"'] from by decide]
      rw [List.cons_append, List.cons_append, List.nil_append, parseStrAux.eq_def]
      simp [escDecode, ih]
    by_cases h2 : c = '\\'
    · subst h2
      rw [show escChar '\\' = ['\\', '\\'] from by decide]
      rw [List.cons_append, List.cons_append, List.nil_append, parseStrAux.eq_def]
      simp [escDecode, ih]
    by_cases h3 : c = '\x08'
    · subst h3
      rw [show escChar '\x08' = ['\\', 'b'] from by decide]
      rw [List.cons_append, List.cons_append, List.nil_append, parseStrAux.eq_def]
      simp [escDecode, ih]
    by_cases h4 : c = '\x0C'
    · subst h4
      rw [show escChar '\x0C' = ['\\', 'f'] from by decide]
      rw [List.cons_append, List.cons_append, List.nil_append, parseStrAux.eq_def]
      simp [escDecode, ih]
    by_cases h5 : c = '\n'
    · subst h5
      rw [show escChar '\n' = ['\\', 'n'] from by decide]
      rw [List.cons_append, List.cons_append, List.nil_append, parseStrAux.eq_def]
      simp [escDecode, ih]
    by_cases h6 : c = '\r'
    · subst h6
      rw [show escChar '\r' = ['\\', 'r'] from by decide]
      rw [List.cons_append, List.cons_append, List.nil_append, parseStrAux.eq_def]
      simp [escDecode, ih]
    by_cases h7 : c = '\t'
    · subst h7
      rw [show escChar '\t' = ['\\', 't'] from by decide]
      rw [List.cons_append, List.cons_append, List.nil_append, parseStrAux.eq_def]
      simp [escDecode, ih]
    by_cases h8 : c.toNat < 32
    · have hhi : c.toNat / 16 < 16 := by omega
      have hlo : c.toNat % 16 < 16 := by omega
      have he : escChar c =
          ['\\', 'u', '0', '0', hexDigitChar (c.toNat / 16), hexDigitChar (c.toNat % 16)] := by
        unfold escChar
        rw [if_neg h1, if_neg h2, if_neg h3, if_neg h4, if_neg h5, if_neg h6, if_neg h7,
          if_pos h8]
      rw [he]
      simp only [List.cons_append, List.nil_append]
      rw [parseStrAux.eq_def]
      simp only [if_neg (show ¬('\\' : Char) = '"' from by decide), if_pos rfl]
      rw [show hexDigVal ('0' : Char) = some 0 from by decide,
        hexDigVal_hexDigitChar _ hhi, hexDigVal_hexDigitChar _ hlo]
      simp only [ih, Option.map_some]
      have harith : ((0 * 16 + 0) * 16 + c.toNat / 16) * 16 + c.toNat % 16 = c.toNat := by
        omega
      rw [harith, Char.ofNat_toNat]
      simp
    · have he : escChar c = [c] := by
        unfold escChar
        rw [if_neg h1, if_neg h2, if_neg h3, if_neg h4, if_neg h5, if_neg h6, if_neg h7,
          if_neg h8]
      rw [he, List.cons_append, List.nil_append, parseStrAux.eq_def]
      simp [h1, h2, ih]


theorem takeWhile_all_append (p : Char → Bool) : ∀ (xs rest : List Char),
    (∀ c ∈ xs, p c = true) → (∀ c, rest.head? = some c → p c = false) →
    (xs ++ rest).takeWhile p = xs ∧ (xs ++ rest).dropWhile p = rest
  | [], rest, _, hrest => by
    cases rest with
    | nil => simp
    | cons c r =>
      have := hrest c rfl
      simp [List.takeWhile_cons, List.dropWhile_cons, this]
  | x :: xs, rest, hall, hrest => by
    have hx : p x = true := hall x (List.mem_cons_self x xs)
    have ih := takeWhile_all_append p xs rest (fun c hc => hall c (List.mem_cons_of_mem x hc)) hrest
    simp [List.takeWhile_cons, List.dropWhile_cons, hx, ih.1, ih.2]

theorem foldl_digits_map : ∀ (ds : List Nat), (∀ d ∈ ds, d < 10) → ∀ (acc : Nat),
    (ds.map digitChar).foldl (fun a c => a * 10 + (c.toNat - 48)) acc =
      ds.foldl (fun a d => a * 10 + d) acc
  | [], _, acc => rfl
  | d :: t, h, acc => by
    have hd : d < 10 := h d (List.mem_cons_self d t)
    have htn : (digitChar d).toNat = 48 + d := (digitChar_props d hd).2.2.2.2.2.2.2.2.2.2.2.2.2.2.2
    have ih := foldl_digits_map t (fun x hx => h x (List.mem_cons_of_mem d hx))
    simp only [List.map_cons, List.foldl_cons, htn]
    rw [ih]
    congr 1
    omega

theorem foldl_rev_ofDigits : ∀ (l : List Nat) (acc : Nat),
    l.reverse.foldl (fun a d => a * 10 + d) acc = acc * 10 ^ l.length + Nat.ofDigits 10 l
  | [], acc => by simp [Nat.ofDigits]
  | d :: t, acc => by
    rw [List.reverse_cons, List.foldl_append]
    rw [foldl_rev_ofDigits t acc]
    simp only [List.foldl_cons, List.foldl_nil, Nat.ofDigits_cons, List.length_cons]
    ring

theorem natDigitsRev_eq_digits (n : Nat) : ∀ (fuel : Nat), n ≤ fuel →
    natDigitsRev fuel n = Nat.digits 10 n := by
  induction n using Nat.strong_induction_on with
  | _ n ih =>
    intro fuel hf
    match fuel, n with
    | 0, 0 => simp [natDigitsRev]
    | f + 1, 0 => simp [natDigitsRev]
    | 0, n + 1 => omega
    | f + 1, n + 1 =>
      rw [show natDigitsRev (f + 1) (n + 1) =
        ((n + 1) % 10) :: natDigitsRev f ((n + 1) / 10) from rfl]
      rw [ih ((n + 1) / 10) (by omega) f (by omega)]
      rw [Nat.digits_def' (by norm_num : (1 : ℕ) < 10) (Nat.succ_pos n)]

theorem serNat_eq (n : Nat) :
    serNat n = if n = 0 then ['0'] else (Nat.digits 10 n).reverse.map digitChar := by
  unfold serNat
  by_cases h : n = 0
  · simp [h]
  · rw [if_neg h, if_neg h, natDigitsRev_eq_digits n n le_rfl]

theorem digitsVal_serNat (n : Nat) : digitsVal (serNat n) = n := by
  by_cases h : n = 0
  · subst h; decide
  · rw [serNat_eq]
    unfold digitsVal
    rw [if_neg h]
    rw [foldl_digits_map _ (fun d hd => Nat.digits_lt_base (by norm_num) (List.mem_reverse.mp hd))]
    rw [foldl_rev_ofDigits]
    simp [Nat.ofDigits_digits]

theorem serNat_ne_nil (n : Nat) : serNat n ≠ [] := by
  rw [serNat_eq]
  by_cases h : n = 0
  · simp [h]
  · rw [if_neg h]
    simp [Nat.digits_ne_nil_iff_ne_zero.mpr h]

theorem serNat_shape (n : Nat) : ∃ (d : Nat) (ds : List Nat),
    serNat n = digitChar d :: ds.map digitChar ∧ d < 10 ∧ ∀ x ∈ ds, x < 10 := by
  by_cases h : n = 0
  · subst h
    refine ⟨0, ([] : List Nat), by decide, by norm_num, by simp⟩
  · have hne : (Nat.digits 10 n).reverse ≠ [] := by
      simp [Nat.digits_ne_nil_iff_ne_zero.mpr h]
    obtain ⟨d, ds, hds⟩ := List.exists_cons_of_ne_nil hne
    refine ⟨d, ds, ?_, ?_, ?_⟩
    · rw [serNat_eq]
      rw [if_neg h, hds]
      simp
    · have hmem : d ∈ (Nat.digits 10 n).reverse := by
        rw [hds]; exact List.mem_cons_self d ds
      exact Nat.digits_lt_base (by norm_num) (List.mem_reverse.mp hmem)
    · intro x hx
      have hmem : x ∈ (Nat.digits 10 n).reverse := by
        rw [hds]; exact List.mem_cons_of_mem d hx
      exact Nat.digits_lt_base (by norm_num) (List.mem_reverse.mp hmem)

theorem serNat_all_digits (n : Nat) : ∀ c ∈ serNat n, isDigitC c = true := by
  obtain ⟨d, ds, he, hd, hds⟩ := serNat_shape n
  rw [he]
  intro c hc
  rcases List.mem_cons.mp hc with rfl | hc2
  · exact (digitChar_props d hd).1
  · obtain ⟨x, hx, rfl⟩ := List.mem_map.mp hc2
    exact (digitChar_props x (hds x hx)).1

theorem delim_head_not_digit (rest : List Char) (h : delimB rest = true) :
    ∀ c, rest.head? = some c → isDigitC c = false := by
  intro c hc
  cases rest with
  | nil => simp at hc
  | cons a r =>
    simp only [List.head?_cons, Option.some.injEq] at hc
    subst hc
    simp only [delimB, Bool.or_eq_true, decide_eq_true_eq] at h
    rcases h with (rfl | rfl) | rfl <;> decide

theorem parseNum_serNat (n : Nat) (rest : List Char) (hd : delimB rest = true) :
    parseNum (serNat n ++ rest) = some ((n : Int), rest) := by
  obtain ⟨d, ds, he, hdlt, hds⟩ := serNat_shape n
  have hall := serNat_all_digits n
  have hrest := delim_head_not_digit rest hd
  have hsplit := takeWhile_all_append isDigitC (serNat n) rest hall hrest
  rw [he] at hsplit ⊢
  simp only [List.cons_append] at hsplit ⊢
  rw [parseNum.eq_def]
  have hnotminus : ¬(digitChar d = '-') := (digitChar_props d hdlt).2.2.2.2.2.2.2.2.2.2.2.2.2.2.1
  simp only [if_neg hnotminus]
  rw [hsplit.1, hsplit.2]
  have hv : digitsVal (digitChar d :: List.map digitChar ds) = n := by
    rw [← he]; exact digitsVal_serNat n
  simp [hv]

theorem parseNum_serInt (i : Int) (rest : List Char) (hd : delimB rest = true) :
    parseNum (serInt i ++ rest) = some (i, rest) := by
  unfold serInt
  by_cases h : i < 0
  · rw [if_pos h, List.cons_append, parseNum.eq_def]
    simp only [if_pos rfl]
    have hall := serNat_all_digits (-i).toNat
    have hrest := delim_head_not_digit rest hd
    have hsplit := takeWhile_all_append isDigitC (serNat (-i).toNat) rest hall hrest
    rw [hsplit.1, hsplit.2]
    have hne := serNat_ne_nil (-i).toNat
    simp only [hne, if_neg hne]
    rw [digitsVal_serNat]
    have : ((-i).toNat : Int) = -i := Int.toNat_of_nonneg (by omega)
    simp [this]
  · rw [if_neg h]
    rw [parseNum_serNat _ _ hd]
    have : ((i.toNat : Nat) : Int) = i := Int.toNat_of_nonneg (by omega)
    simp [this]


theorem strMkData (s : String) : String.mk s.data = s := by
  cases s
  rfl

theorem serInt_shape (i : Int) : ∃ c cs, serInt i = c :: cs ∧
    isJsonWs c = false ∧ isTrimWs c = false ∧ c ≠ 'n' ∧ c ≠ 't' ∧ c ≠ 'f' ∧
    c ≠ '"' ∧ c ≠ '[' ∧ c ≠ '\x7b' ∧ c ≠ ']' ∧ c ≠ ',' ∧ c ≠ '\x7d' ∧
    (c = '-' ∨ isDigitC c = true) := by
  unfold serInt
  by_cases h : i < 0
  · rw [if_pos h]
    refine ⟨'-', serNat (-i).toNat, rfl, ?_, ?_, ?_, ?_, ?_, ?_, ?_, ?_, ?_, ?_, ?_, Or.inl rfl⟩
      <;> decide
  · rw [if_neg h]
    obtain ⟨d, ds, he, hd, _⟩ := serNat_shape i.toNat
    have p := digitChar_props d hd
    refine ⟨digitChar d, ds.map digitChar, he, p.2.1, p.2.2.1, p.2.2.2.1, p.2.2.2.2.1,
      p.2.2.2.2.2.1, p.2.2.2.2.2.2.1, p.2.2.2.2.2.2.2.1, p.2.2.2.2.2.2.2.2.1,
      p.2.2.2.2.2.2.2.2.2.2.1, p.2.2.2.2.2.2.2.2.2.1, p.2.2.2.2.2.2.2.2.2.2.2.1, Or.inr p.1⟩

theorem serializeV_head (j : Json) : ∃ c cs, serializeV j = c :: cs ∧
    isJsonWs c = false ∧ isTrimWs c = false ∧ c ≠ ']' ∧ c ≠ ',' ∧ c ≠ '\x7d' ∧
    (c = '[' ↔ ∃ l, j = Json.arr l) := by
  cases j with
  | null =>
    refine ⟨'n', ['u', 'l', 'l'], by simp [serializeV], ?_, ?_, ?_, ?_, ?_, ?_⟩
    · decide
    · decide
    · decide
    · decide
    · decide
    · constructor
      · intro h; cases h
      · rintro ⟨l, hl⟩; cases hl
  | bool b =>
    cases b with
    | false =>
      refine ⟨'f', ['a', 'l', 's', 'e'], by simp [serializeV], ?_, ?_, ?_, ?_, ?_, ?_⟩
      · decide
      · decide
      · decide
      · decide
      · decide
      · constructor
        · intro h; cases h
        · rintro ⟨l, hl⟩; cases hl
    | true =>
      refine ⟨'t', ['r', 'u', 'e'], by simp [serializeV], ?_, ?_, ?_, ?_, ?_, ?_⟩
      · decide
      · decide
      · decide
      · decide
      · decide
      · constructor
        · intro h; cases h
        · rintro ⟨l, hl⟩; cases hl
  | num i =>
    obtain ⟨c, cs, he, p2, p3, _, _, _, _, p8, _, p10, p11, p12, _⟩ := serInt_shape i
    refine ⟨c, cs, by simp [serializeV, he], p2, p3, p10, p11, p12, ?_⟩
    constructor
    · intro hc; exact absurd hc p8
    · rintro ⟨l, hl⟩; cases hl
  | str s =>
    refine ⟨'"', escList s.data ++ ['"'], by simp [serializeV], ?_, ?_, ?_, ?_, ?_, ?_⟩
    · decide
    · decide
    · decide
    · decide
    · decide
    · constructor
      · intro h; cases h
      · rintro ⟨l, hl⟩; cases hl
  | arr l =>
    refine ⟨'[', serElemsV l ++ [']'], by simp [serializeV], ?_, ?_, ?_, ?_, ?_, ?_⟩
    · decide
    · decide
    · decide
    · decide
    · decide
    · simp
  | obj m =>
    refine ⟨'\x7b', serMembersV m ++ ['\x7d'], by simp [serializeV], ?_, ?_, ?_, ?_, ?_, ?_⟩
    · decide
    · decide
    · decide
    · decide
    · decide
    · constructor
      · intro h; cases h
      · rintro ⟨l, hl⟩; cases hl

theorem serializeV_ne_nil (j : Json) : serializeV j ≠ [] := by
  obtain ⟨c, cs, he, _⟩ := serializeV_head j
  simp [he]

theorem serElemsV_cons_eq (a : Json) (as : List Json) :
    ∃ t, serElemsV (a :: as) = serializeV a ++ t := by
  cases as with
  | nil => exact ⟨[], by simp [serElemsV]⟩
  | cons b bs => exact ⟨',' :: serElemsV (b :: bs), by simp [serElemsV]⟩

theorem serMembersV_cons_head (k : String) (v : Json) (ms : List (String × Json)) :
    ∃ t, serMembersV ((k, v) :: ms) = '"' :: t := by
  cases ms with
  | nil => exact ⟨escList k.data ++ '"' :: ':' :: serializeV v, by simp [serMembersV]⟩
  | cons m rest =>
    exact ⟨escList k.data ++ '"' :: ':' :: (serializeV v ++ ',' :: serMembersV (m :: rest)),
      by simp [serMembersV]⟩


theorem skipWs_cons_not {c : Char} (r : List Char) (h : isJsonWs c = false) :
    skipWs (c :: r) = c :: r := by
  simp [skipWs, List.dropWhile_cons, h]

theorem parseVal_succ_cons (f : Nat) (c : Char) (r : List Char) (hws : isJsonWs c = false) :
    parseVal (f + 1) (c :: r) =
      (if c = 'n' then (expectLit ['u', 'l', 'l'] r).map (fun r2 => (Json.null, r2))
      else if c = 't' then (expectLit ['r', 'u', 'e'] r).map (fun r2 => (Json.bool true, r2))
      else if c = 'f' then (expectLit ['a', 'l', 's', 'e'] r).map (fun r2 => (Json.bool false, r2))
      else if c = '"' then (parseStrAux r).map (fun pr => (Json.str (String.mk pr.1), pr.2))
      else if c = '[' then
        match skipWs r with
        | [] => none
        | c2 :: r2 =>
          if c2 = ']' then some (Json.arr [], r2)
          else parseElems f (c2 :: r2)
      else if c = '\x7b' then
        match skipWs r with
        | [] => none
        | c2 :: r2 =>
          if c2 = '\x7d' then some (Json.obj [], r2)
          else parseMembers f (c2 :: r2)
      else if c = '-' || isDigitC c then
        (parseNum (c :: r)).map (fun pr => (Json.num pr.1, pr.2))
      else none) := by
  rw [parseVal.eq_def]
  dsimp only
  rw [show skipWs (c :: r) = c :: r from skipWs_cons_not r hws]

theorem parseElems_succ (f : Nat) (cs : List Char) :
    parseElems (f + 1) cs =
      (match parseVal f cs with
      | none => none
      | some (v, r) =>
        match skipWs r with
        | [] => none
        | c :: r2 =>
          if c = ',' then
            match parseElems f r2 with
            | some (Json.arr l, r3) => some (Json.arr (v :: l), r3)
            | _ => none
          else if c = ']' then some (Json.arr [v], r2)
          else none) := by
  rw [parseElems.eq_def]

theorem parseMembers_succ (f : Nat) (cs : List Char) :
    parseMembers (f + 1) cs =
      (match skipWs cs with
      | [] => none
      | c :: r =>
        if c = '"' then
          match parseStrAux r with
          | none => none
          | some (k, r2) =>
            match skipWs r2 with
            | [] => none
            | c2 :: r3 =>
              if c2 = ':' then
                match parseVal f r3 with
                | none => none
                | some (v, r4) =>
                  match skipWs r4 with
                  | [] => none
                  | c3 :: r5 =>
                    if c3 = ',' then
                      match parseMembers f r5 with
                      | some (Json.obj m, r6) => some (Json.obj ((String.mk k, v) :: m), r6)
                      | _ => none
                    else if c3 = '\x7d' then some (Json.obj [(String.mk k, v)], r5)
                    else none
              else none
        else none) := by
  rw [parseMembers.eq_def]

theorem parseVal_open_arr (f : Nat) (c : Char) (cs : List Char)
    (hws : isJsonWs c = false) (hc : ¬c = ']') :
    parseVal (f + 1) ('[' :: c :: cs) = parseElems f (c :: cs) := by
  rw [parseVal_succ_cons f '[' (c :: cs) (by decide)]
  rw [show skipWs (c :: cs) = c :: cs from skipWs_cons_not cs hws]
  simp [hc]

theorem parseVal_open_obj (f : Nat) (c : Char) (cs : List Char)
    (hws : isJsonWs c = false) (hc : ¬c = '\x7d') :
    parseVal (f + 1) ('\x7b' :: c :: cs) = parseMembers f (c :: cs) := by
  rw [parseVal_succ_cons f '\x7b' (c :: cs) (by decide)]
  rw [show skipWs (c :: cs) = c :: cs from skipWs_cons_not cs hws]
  simp [hc]

theorem parse_serialize : ∀ f : Nat,
    (∀ (j : Json) (rest : List Char), (serializeV j).length ≤ f → delimB rest = true →
      parseVal f (serializeV j ++ rest) = some (j, rest)) ∧
    (∀ (l : List Json) (rest : List Char), l ≠ [] →
      (serElemsV l).length + 1 ≤ f → delimB rest = true →
      parseElems f (serElemsV l ++ ']' :: rest) = some (Json.arr l, rest)) ∧
    (∀ (m : List (String × Json)) (rest : List Char), m ≠ [] →
      (serMembersV m).length + 1 ≤ f → delimB rest = true →
      parseMembers f (serMembersV m ++ '\x7d' :: rest) = some (Json.obj m, rest)) := by
  intro f
  induction f with
  | zero =>
    refine ⟨?_, ?_, ?_⟩
    · intro j rest hlen _
      have h1 := serializeV_ne_nil j
      have h2 : 0 < (serializeV j).length := List.length_pos.mpr h1
      omega
    · intro l rest _ hlen _
      omega
    · intro m rest _ hlen _
      omega
  | succ f ih =>
    obtain ⟨ihP, ihQ, ihR⟩ := ih
    refine ⟨?_, ?_, ?_⟩
    · intro j rest hlen hrest
      cases j with
      | null =>
        show parseVal (f + 1) (['n', 'u', 'l', 'l'] ++ rest) = _
        rw [List.cons_append, parseVal_succ_cons f 'n' _ (by decide)]
        simp [expectLit, isPre]
      | bool b =>
        cases b with
        | false =>
          show parseVal (f + 1) (['f', 'a', 'l', 's', 'e'] ++ rest) = _
          rw [List.cons_append, parseVal_succ_cons f 'f' _ (by decide)]
          simp [expectLit, isPre]
        | true =>
          show parseVal (f + 1) (['t', 'r', 'u', 'e'] ++ rest) = _
          rw [List.cons_append, parseVal_succ_cons f 't' _ (by decide)]
          simp [expectLit, isPre]
      | num i =>
        obtain ⟨c, cs, he, p2, p3, p4, p5, p6, p7, p8, p9, p10, p11, p12, p13⟩ := serInt_shape i
        have hser : serializeV (Json.num i) ++ rest = c :: (cs ++ rest) := by
          simp [serializeV, he]
        rw [hser, parseVal_succ_cons f c _ p2]
        rw [if_neg p4, if_neg p5, if_neg p6, if_neg p7, if_neg p8, if_neg p9]
        have hback : c :: (cs ++ rest) = serInt i ++ rest := by
          rw [he, List.cons_append]
        have hnum := parseNum_serInt i rest hrest
        have hcond : (c = '-' || isDigitC c) = true := by
          rcases p13 with h | h
          · subst h; simp
          · simp [h]
        simp [hcond, hback, hnum]
      | str s =>
        have hser : serializeV (Json.str s) ++ rest = '"' :: (escList s.data ++ '"' :: rest) := by
          simp [serializeV]
        rw [hser, parseVal_succ_cons f '"' _ (by decide)]
        simp [parseStrAux_escList, strMkData]
      | arr l =>
        cases l with
        | nil =>
          show parseVal (f + 1) (('[' :: serElemsV [] ++ [']']) ++ rest) = _
          rw [show ('[' :: serElemsV [] ++ [']']) ++ rest = '[' :: ']' :: rest from by
            simp [serElemsV]]
          rw [parseVal_succ_cons f '[' _ (by decide)]
          rw [show skipWs (']' :: rest) = ']' :: rest from skipWs_cons_not rest (by decide)]
          simp
        | cons a as =>
          obtain ⟨t, ht⟩ := serElemsV_cons_eq a as
          obtain ⟨c, cs, hca, q2, q3, q4, q5, q6, q7⟩ := serializeV_head a
          have hser : serializeV (Json.arr (a :: as)) ++ rest =
              '[' :: c :: (cs ++ t ++ ']' :: rest) := by
            simp [serializeV, ht, hca]
          have hinner : c :: (cs ++ t ++ ']' :: rest) = serElemsV (a :: as) ++ ']' :: rest := by
            rw [ht, hca]
            simp
          have hlen2 : (serElemsV (a :: as)).length + 1 ≤ f := by
            have hv : serializeV (Json.arr (a :: as)) = '[' :: serElemsV (a :: as) ++ [']'] := by
              simp [serializeV]
            rw [hv] at hlen
            simp only [List.length_cons, List.length_append, List.length_singleton] at hlen
            omega
          rw [hser, parseVal_open_arr f c _ q2 q4, hinner]
          exact ihQ (a :: as) rest (by simp) hlen2 hrest
      | obj m =>
        cases m with
        | nil =>
          show parseVal (f + 1) (('\x7b' :: serMembersV [] ++ ['\x7d']) ++ rest) = _
          rw [show ('\x7b' :: serMembersV [] ++ ['\x7d']) ++ rest = '\x7b' :: '\x7d' :: rest from by
            simp [serMembersV]]
          rw [parseVal_succ_cons f '\x7b' _ (by decide)]
          rw [show skipWs ('\x7d' :: rest) = '\x7d' :: rest from skipWs_cons_not rest (by decide)]
          simp
        | cons kv ms =>
          obtain ⟨k, v⟩ := kv
          obtain ⟨t, ht⟩ := serMembersV_cons_head k v ms
          have hser : serializeV (Json.obj ((k, v) :: ms)) ++ rest =
              '\x7b' :: '"' :: (t ++ '\x7d' :: rest) := by
            simp [serializeV, ht]
          have hinner : '"' :: (t ++ '\x7d' :: rest) =
              serMembersV ((k, v) :: ms) ++ '\x7d' :: rest := by
            rw [ht]
            simp
          have hlen2 : (serMembersV ((k, v) :: ms)).length + 1 ≤ f := by
            have hv : serializeV (Json.obj ((k, v) :: ms)) =
                '\x7b' :: serMembersV ((k, v) :: ms) ++ ['\x7d'] := by
              simp [serializeV]
            rw [hv] at hlen
            simp only [List.length_cons, List.length_append, List.length_singleton] at hlen
            omega
          rw [hser, parseVal_open_obj f '"' _ (by decide) (by decide), hinner]
          exact ihR ((k, v) :: ms) rest (by simp) hlen2 hrest
    · intro l rest hne hlen hrest
      cases l with
      | nil => exact absurd rfl hne
      | cons a as =>
        cases as with
        | nil =>
          have hlen2 : (serializeV a).length ≤ f := by
            simp only [serElemsV] at hlen
            omega
          have hP := ihP a (']' :: rest) hlen2 (by simp [delimB])
          show parseElems (f + 1) (serElemsV [a] ++ ']' :: rest) = _
          rw [show serElemsV [a] = serializeV a from by simp [serElemsV]]
          rw [parseElems_succ]
          rw [hP]
          dsimp only
          rw [show skipWs (']' :: rest) = ']' :: rest from skipWs_cons_not rest (by decide)]
          simp
        | cons b bs =>
          have hsplit : serElemsV (a :: b :: bs) ++ ']' :: rest =
              serializeV a ++ (',' :: (serElemsV (b :: bs) ++ ']' :: rest)) := by
            simp [serElemsV]
          have hlens : (serElemsV (a :: b :: bs)).length =
              (serializeV a).length + 1 + (serElemsV (b :: bs)).length := by
            simp only [serElemsV, List.length_append, List.length_cons]
            omega
          have hpos : 0 < (serializeV a).length :=
            List.length_pos.mpr (serializeV_ne_nil a)
          have hlena : (serializeV a).length ≤ f := by omega
          have hlenb : (serElemsV (b :: bs)).length + 1 ≤ f := by omega
          have hP := ihP a (',' :: (serElemsV (b :: bs) ++ ']' :: rest)) hlena (by simp [delimB])
          have hQ := ihQ (b :: bs) rest (by simp) hlenb hrest
          rw [hsplit, parseElems_succ]
          rw [hP]
          dsimp only
          rw [show skipWs (',' :: (serElemsV (b :: bs) ++ ']' :: rest)) = _ from
            skipWs_cons_not _ (by decide)]
          dsimp only
          rw [if_pos rfl, hQ]
    · intro m rest hne hlen hrest
      cases m with
      | nil => exact absurd rfl hne
      | cons kv ms =>
        obtain ⟨k, v⟩ := kv
        cases ms with
        | nil =>
          have hlenv : (serializeV v).length ≤ f := by
            have h1 : (serMembersV [(k, v)]).length =
                3 + (escList k.data).length + (serializeV v).length := by
              simp only [serMembersV, List.length_cons, List.length_append]
              omega
            omega
          have hP := ihP v ('\x7d' :: rest) hlenv (by simp [delimB])
          show parseMembers (f + 1) (serMembersV [(k, v)] ++ '\x7d' :: rest) = _
          rw [show serMembersV [(k, v)] ++ '\x7d' :: rest =
              '"' :: (escList k.data ++ '"' :: (':' :: (serializeV v ++ '\x7d' :: rest))) from by
            simp [serMembersV]]
          rw [parseMembers_succ]
          rw [show skipWs ('"' :: (escList k.data ++ '"' ::
              (':' :: (serializeV v ++ '\x7d' :: rest)))) = _ from skipWs_cons_not _ (by decide)]
          dsimp only
          rw [if_pos rfl, parseStrAux_escList]
          dsimp only
          rw [show skipWs (':' :: (serializeV v ++ '\x7d' :: rest)) = _ from
            skipWs_cons_not _ (by decide)]
          dsimp only
          rw [if_pos rfl, hP]
          dsimp only
          rw [show skipWs ('\x7d' :: rest) = '\x7d' :: rest from skipWs_cons_not rest (by decide)]
          simp [strMkData]
        | cons m2 ms2 =>
          have hkey : serMembersV ((k, v) :: m2 :: ms2) ++ '\x7d' :: rest =
              '"' :: (escList k.data ++ '"' :: (':' :: (serializeV v ++
                (',' :: (serMembersV (m2 :: ms2) ++ '\x7d' :: rest))))) := by
            simp [serMembersV]
          have h1 : (serMembersV ((k, v) :: m2 :: ms2)).length =
              4 + (escList k.data).length + (serializeV v).length +
                (serMembersV (m2 :: ms2)).length := by
            simp only [serMembersV, List.length_cons, List.length_append]
            omega
          have hlenv : (serializeV v).length ≤ f := by omega
          have hlenm : (serMembersV (m2 :: ms2)).length + 1 ≤ f := by omega
          have hP := ihP v (',' :: (serMembersV (m2 :: ms2) ++ '\x7d' :: rest)) hlenv
            (by simp [delimB])
          have hR := ihR (m2 :: ms2) rest (by simp) hlenm hrest
          rw [hkey, parseMembers_succ]
          rw [show skipWs ('"' :: (escList k.data ++ '"' :: (':' :: (serializeV v ++
              (',' :: (serMembersV (m2 :: ms2) ++ '\x7d' :: rest)))))) = _ from
            skipWs_cons_not _ (by decide)]
          dsimp only
          rw [if_pos rfl, parseStrAux_escList]
          dsimp only
          rw [show skipWs (':' :: (serializeV v ++
              (',' :: (serMembersV (m2 :: ms2) ++ '\x7d' :: rest)))) = _ from
            skipWs_cons_not _ (by decide)]
          dsimp only
          rw [if_pos rfl, hP]
          dsimp only
          rw [show skipWs (',' :: (serMembersV (m2 :: ms2) ++ '\x7d' :: rest)) = _ from
            skipWs_cons_not _ (by decide)]
          dsimp only
          rw [if_pos rfl, hR]


theorem jsonParse_serializeV (j : Json) : jsonParse (serializeV j) = some j := by
  unfold jsonParse
  have h := (parse_serialize ((serializeV j).length + 1)).1 j [] (by omega) (by decide)
  rw [List.append_nil] at h
  rw [h]
  rfl

theorem serNat_noNL (n : Nat) : ∀ c ∈ serNat n, c ≠ '\n' ∧ c ≠ '\r' := by
  obtain ⟨d, ds, he, hd, hds⟩ := serNat_shape n
  rw [he]
  intro c hc
  rcases List.mem_cons.mp hc with rfl | hc2
  · obtain ⟨_, _, _, _, _, _, _, _, _, _, _, _, hn, hr, _, _⟩ := digitChar_props d hd
    exact ⟨hn, hr⟩
  · obtain ⟨x, hx, rfl⟩ := List.mem_map.mp hc2
    obtain ⟨_, _, _, _, _, _, _, _, _, _, _, _, hn, hr, _, _⟩ := digitChar_props x (hds x hx)
    exact ⟨hn, hr⟩

theorem serInt_noNL (i : Int) : ∀ c ∈ serInt i, c ≠ '\n' ∧ c ≠ '\r' := by
  intro c hc
  unfold serInt at hc
  split_ifs at hc
  · rcases List.mem_cons.mp hc with rfl | hc2
    · exact ⟨by decide, by decide⟩
    · exact serNat_noNL _ c hc2
  · exact serNat_noNL _ c hc

mutual
theorem serializeV_noNL : ∀ (j : Json), ∀ c ∈ serializeV j, c ≠ '\n' ∧ c ≠ '\r'
  | .null, c, hc => by
    simp only [serializeV, List.mem_cons, List.not_mem_nil, or_false] at hc
    rcases hc with rfl | rfl | rfl | rfl <;> exact ⟨by decide, by decide⟩
  | .bool true, c, hc => by
    simp only [serializeV, List.mem_cons, List.not_mem_nil, or_false] at hc
    rcases hc with rfl | rfl | rfl | rfl <;> exact ⟨by decide, by decide⟩
  | .bool false, c, hc => by
    simp only [serializeV, List.mem_cons, List.not_mem_nil, or_false] at hc
    rcases hc with rfl | rfl | rfl | rfl | rfl <;> exact ⟨by decide, by decide⟩
  | .num i, c, hc => by
    simp only [serializeV] at hc
    exact serInt_noNL i c hc
  | .str s, c, hc => by
    rw [show serializeV (.str s) = '"' :: (escList s.data ++ ['"']) from by simp [serializeV]] at hc
    rcases List.mem_cons.mp hc with rfl | hc2
    · exact ⟨by decide, by decide⟩
    rcases List.mem_append.mp hc2 with hc3 | hc3
    · exact escList_no_newline s.data c hc3
    · rcases List.mem_singleton.mp hc3 with rfl
      exact ⟨by decide, by decide⟩
  | .arr l, c, hc => by
    rw [show serializeV (.arr l) = '[' :: (serElemsV l ++ [']']) from by simp [serializeV]] at hc
    rcases List.mem_cons.mp hc with rfl | hc2
    · exact ⟨by decide, by decide⟩
    rcases List.mem_append.mp hc2 with hc3 | hc3
    · exact serElemsV_noNL l c hc3
    · rcases List.mem_singleton.mp hc3 with rfl
      exact ⟨by decide, by decide⟩
  | .obj m, c, hc => by
    rw [show serializeV (.obj m) = '\x7b' :: (serMembersV m ++ ['\x7d']) from by
      simp [serializeV]] at hc
    rcases List.mem_cons.mp hc with rfl | hc2
    · exact ⟨by decide, by decide⟩
    rcases List.mem_append.mp hc2 with hc3 | hc3
    · exact serMembersV_noNL m c hc3
    · rcases List.mem_singleton.mp hc3 with rfl
      exact ⟨by decide, by decide⟩
theorem serElemsV_noNL : ∀ (l : List Json), ∀ c ∈ serElemsV l, c ≠ '\n' ∧ c ≠ '\r'
  | [], c, hc => by simp [serElemsV] at hc
  | [a], c, hc => by
    simp only [serElemsV] at hc
    exact serializeV_noNL a c hc
  | a :: b :: rest, c, hc => by
    simp only [serElemsV, List.mem_append, List.mem_cons] at hc
    rcases hc with hc2 | rfl | hc2
    · exact serializeV_noNL a c hc2
    · exact ⟨by decide, by decide⟩
    · exact serElemsV_noNL (b :: rest) c hc2
theorem serMembersV_noNL : ∀ (m : List (String × Json)), ∀ c ∈ serMembersV m, c ≠ '\n' ∧ c ≠ '\r'
  | [], c, hc => by simp [serMembersV] at hc
  | [(k, v)], c, hc => by
    rw [show serMembersV [(k, v)] =
        '"' :: (escList k.data ++ '"' :: ':' :: serializeV v) from by simp [serMembersV]] at hc
    rcases List.mem_cons.mp hc with rfl | hc2
    · exact ⟨by decide, by decide⟩
    rcases List.mem_append.mp hc2 with hc3 | hc3
    · exact escList_no_newline k.data c hc3
    rcases List.mem_cons.mp hc3 with rfl | hc4
    · exact ⟨by decide, by decide⟩
    rcases List.mem_cons.mp hc4 with rfl | hc5
    · exact ⟨by decide, by decide⟩
    exact serializeV_noNL v c hc5
  | (k, v) :: m2 :: rest, c, hc => by
    rw [show serMembersV ((k, v) :: m2 :: rest) =
        '"' :: (escList k.data ++ '"' :: ':' ::
          (serializeV v ++ ',' :: serMembersV (m2 :: rest))) from by simp [serMembersV]] at hc
    rcases List.mem_cons.mp hc with rfl | hc2
    · exact ⟨by decide, by decide⟩
    rcases List.mem_append.mp hc2 with hc3 | hc3
    · exact escList_no_newline k.data c hc3
    rcases List.mem_cons.mp hc3 with rfl | hc4
    · exact ⟨by decide, by decide⟩
    rcases List.mem_cons.mp hc4 with rfl | hc5
    · exact ⟨by decide, by decide⟩
    rcases List.mem_append.mp hc5 with hc6 | hc6
    · exact serializeV_noNL v c hc6
    rcases List.mem_cons.mp hc6 with rfl | hc7
    · exact ⟨by decide, by decide⟩
    exact serMembersV_noNL (m2 :: rest) c hc7
end

theorem serNat_last (n : Nat) : ∃ init d, serNat n = init ++ [digitChar d] ∧ d < 10 := by
  by_cases h : n = 0
  · subst h
    exact ⟨[], 0, by decide, by norm_num⟩
  · have hne : Nat.digits 10 n ≠ [] := Nat.digits_ne_nil_iff_ne_zero.mpr h
    obtain ⟨d0, ds, hds⟩ := List.exists_cons_of_ne_nil hne
    have hd0 : d0 < 10 := by
      refine @Nat.digits_lt_base 10 n d0 (by norm_num) ?_
      rw [hds]
      exact List.mem_cons_self d0 ds
    refine ⟨ds.reverse.map digitChar, d0, ?_, hd0⟩
    rw [serNat_eq]
    rw [if_neg h, hds]
    simp

theorem serializeV_last (j : Json) : ∃ init c, serializeV j = init ++ [c] ∧ isTrimWs c = false := by
  cases j with
  | null => exact ⟨['n', 'u', 'l'], 'l', by simp [serializeV], by decide⟩
  | bool b =>
    cases b with
    | true => exact ⟨['t', 'r', 'u'], 'e', by simp [serializeV], by decide⟩
    | false => exact ⟨['f', 'a', 'l', 's'], 'e', by simp [serializeV], by decide⟩
  | num i =>
    obtain ⟨init, d, he, hd⟩ := serNat_last (if i < 0 then (-i).toNat else i.toNat)
    have hc : isTrimWs (digitChar d) = false := (digitChar_props d hd).2.2.1
    by_cases h : i < 0
    · refine ⟨'-' :: init, digitChar d, ?_, hc⟩
      simp only [serializeV, serInt, if_pos h]
      rw [if_pos h] at he
      rw [he]
      rfl
    · refine ⟨init, digitChar d, ?_, hc⟩
      simp only [serializeV, serInt, if_neg h]
      rw [if_neg h] at he
      rw [he]
  | str s => exact ⟨'"' :: escList s.data, '"', by simp [serializeV], by decide⟩
  | arr l => exact ⟨'[' :: serElemsV l, ']', by simp [serializeV], by decide⟩
  | obj m => exact ⟨'\x7b' :: serMembersV m, '\x7d', by simp [serializeV], by decide⟩

theorem trimLeft_no_ws (cs : List Char) (h : ∀ c, cs.head? = some c → isTrimWs c = false) :
    trimLeftCs cs = cs := by
  cases cs with
  | nil => rfl
  | cons c t => simp [trimLeftCs, List.dropWhile_cons, h c rfl]

theorem trimRight_no_ws (x : List Char)
    (h : ∃ init c, x = init ++ [c] ∧ isTrimWs c = false) : trimRightCs x = x := by
  obtain ⟨init, c, rfl, hc⟩ := h
  unfold trimRightCs
  rw [List.reverse_append]
  simp only [List.reverse_singleton, List.singleton_append, List.dropWhile_cons, hc]
  simp [hc]

theorem trimRight_append_nl (x : List Char)
    (h : ∃ init c, x = init ++ [c] ∧ isTrimWs c = false) :
    trimRightCs (x ++ ['\n']) = x := by
  obtain ⟨init, c, rfl, hc⟩ := h
  unfold trimRightCs
  rw [List.reverse_append, List.reverse_append]
  simp only [List.reverse_singleton, List.singleton_append, List.cons_append,
    List.dropWhile_cons]
  rw [show isTrimWs '\n' = true from by decide]
  simp only [if_true, hc]
  simp [hc]

theorem trimCs_canonical (x : List Char)
    (hhead : ∀ c, x.head? = some c → isTrimWs c = false)
    (hlast : ∃ init c, x = init ++ [c] ∧ isTrimWs c = false) :
    trimCs (x ++ ['\n']) = x := by
  unfold trimCs
  have hx : x ≠ [] := by
    obtain ⟨init, c, rfl, _⟩ := hlast
    simp
  have h1 : trimLeftCs (x ++ ['\n']) = x ++ ['\n'] := by
    refine trimLeft_no_ws _ ?_
    intro c hc
    cases x with
    | nil => exact absurd rfl hx
    | cons a t =>
      simp only [List.cons_append, List.head?_cons, Option.some.injEq] at hc
      subst hc
      exact hhead a rfl
  rw [h1]
  exact trimRight_append_nl x hlast

theorem trimCs_id (x : List Char)
    (hhead : ∀ c, x.head? = some c → isTrimWs c = false)
    (hlast : ∃ init c, x = init ++ [c] ∧ isTrimWs c = false) :
    trimCs x = x := by
  unfold trimCs
  rw [trimLeft_no_ws x hhead]
  exact trimRight_no_ws x hlast

/-- Newline join of serialized lines (model of `Array.prototype.join("\n")`). -/
def joinNL : List (List Char) → List Char
  | [] => []
  | [x] => x
  | x :: y :: r => x ++ '\n' :: joinNL (y :: r)

theorem splitOnChar_no_sep : ∀ (x : List Char), '\n' ∉ x → splitOnChar '\n' x = [x]
  | [], _ => rfl
  | c :: t, h => by
    have hc : ¬c = '\n' := fun hh => h (hh ▸ List.mem_cons_self c t)
    have ht : '\n' ∉ t := fun hh => h (List.mem_cons_of_mem c hh)
    simp [splitOnChar, hc, splitOnChar_no_sep t ht]

theorem splitOnChar_append_sep : ∀ (x r : List Char), '\n' ∉ x →
    splitOnChar '\n' (x ++ '\n' :: r) = x :: splitOnChar '\n' r
  | [], r, _ => by simp [splitOnChar]
  | c :: t, r, h => by
    have hc : ¬c = '\n' := fun hh => h (hh ▸ List.mem_cons_self c t)
    have ht : '\n' ∉ t := fun hh => h (List.mem_cons_of_mem c hh)
    have ih := splitOnChar_append_sep t r ht
    show splitOnChar '\n' (c :: (t ++ '\n' :: r)) = _
    rw [show splitOnChar '\n' (c :: (t ++ '\n' :: r)) =
      (match splitOnChar '\n' (t ++ '\n' :: r) with
        | [] => [[c]]
        | l :: ls => (c :: l) :: ls) from by
        rw [splitOnChar.eq_def]
        dsimp only
        rw [if_neg hc]]
    rw [ih]

theorem splitOnChar_joinNL : ∀ (ps : List (List Char)), ps ≠ [] →
    (∀ p ∈ ps, '\n' ∉ p) → splitOnChar '\n' (joinNL ps) = ps
  | [], h, _ => absurd rfl h
  | [x], _, hall => by
    simp only [joinNL]
    exact splitOnChar_no_sep x (hall x (List.mem_cons_self x []))
  | x :: y :: r, _, hall => by
    simp only [joinNL]
    rw [splitOnChar_append_sep x (joinNL (y :: r)) (hall x (List.mem_cons_self x _))]
    rw [show splitOnChar '\n' (joinNL (y :: r)) = y :: r from
      splitOnChar_joinNL (y :: r) (by simp) (fun p hp => hall p (List.mem_cons_of_mem x hp))]

theorem dropTrailingCR_id (l : List Char) (h : '\r' ∉ l) : dropTrailingCR l = l := by
  unfold dropTrailingCR
  cases hrev : l.reverse with
  | nil => rfl
  | cons c t =>
    have hc : ¬c = '\r' := by
      intro hh
      subst hh
      exact h (List.mem_reverse.mp (hrev ▸ List.mem_cons_self '\r' t))
    simp [hc]

theorem joinNL_head : ∀ (p : List Char) (ps : List (List Char)), p ≠ [] →
    (joinNL (p :: ps)).head? = p.head?
  | p, [], _ => rfl
  | p, q :: r, hp => by
    obtain ⟨a, t, rfl⟩ := List.exists_cons_of_ne_nil hp
    simp [joinNL]

theorem joinNL_last : ∀ (ps : List (List Char)), ps ≠ [] →
    (∀ p ∈ ps, ∃ init c, p = init ++ [c] ∧ isTrimWs c = false) →
    ∃ init c, joinNL ps = init ++ [c] ∧ isTrimWs c = false
  | [], h, _ => absurd rfl h
  | [x], _, hall => by
    simpa [joinNL] using hall x (List.mem_cons_self x [])
  | x :: y :: r, _, hall => by
    obtain ⟨init, c, hic, hc⟩ :=
      joinNL_last (y :: r) (by simp) (fun p hp => hall p (List.mem_cons_of_mem x hp))
    refine ⟨x ++ '\n' :: init, c, ?_, hc⟩
    simp only [joinNL, hic]
    simp


/-! ## Pack loader and writer (model of `loadPackDocs` / `savePackDocs`) -/

/-- Detected serialization format of a pack file. -/
inductive PackFormat where
  | array : PackFormat
  | ndjson : PackFormat
  deriving DecidableEq

/-- Errors `loadPackDocs` can raise: a `JSON.parse` failure on an
array-format file, the `Expected array in ...` check, or a per-line parse
failure carrying `path.basename(file)` and the reported 1-based line. -/
inductive LoadError where
  | arrayParse (file : String) : LoadError
  | expectedArray (file : String) : LoadError
  | lineParse (file : String) (line : Nat) : LoadError
  deriving DecidableEq

/-- Model of `path.basename`: the part of the path after the last slash. -/
def basename (p : String) : String :=
  String.mk ((p.data.reverse.takeWhile (fun c => !(c = '/' : Bool))).reverse)

/-- Parse the trimmed non-empty lines of an ndjson pack in order; `i` is the
0-based index of the current line within that filtered list, and a malformed
line is reported at position `i + 1` (the `idx + 1` of the source). -/
def parseLines (file : String) : Nat → List (List Char) → Except LoadError (List Json)
  | _, [] => Except.ok []
  | i, l :: ls =>
    match jsonParse l with
    | some j => (parseLines file (i + 1) ls).map (fun ds => j :: ds)
    | none => Except.error (LoadError.lineParse file (i + 1))

/-- Model of `loadPackDocs`: trim the file content; empty means no docs in
ndjson format; content starting with `[` is parsed as one JSON array;
otherwise the content is split on `/\r?\n/`, each line trimmed, blank lines
dropped, and each remaining line parsed as one JSON record. -/
def loadPackDocs (packFilePath raw : String) : Except LoadError (List Json × PackFormat) :=
  let t := trimCs raw.data
  if t = [] then Except.ok ([], PackFormat.ndjson)
  else if t.head? = some '[' then
    match jsonParse t with
    | none => Except.error (LoadError.arrayParse packFilePath)
    | some (Json.arr ds) => Except.ok (ds, PackFormat.array)
    | some _ => Except.error (LoadError.expectedArray packFilePath)
  else
    (parseLines (basename packFilePath) 0
      (((splitLines t).map trimCs).filter (fun l => !l.isEmpty))).map
      (fun ds => (ds, PackFormat.ndjson))

/-- Model of `savePackDocs`: array format is `JSON.stringify(docs, null, 0)`
plus a newline; ndjson is one compact `JSON.stringify` per line plus a
trailing newline. -/
def savePackDocs (docs : List Json) (format : PackFormat) : String :=
  match format with
  | PackFormat.array => String.mk (serializeV (Json.arr docs) ++ ['\n'])
  | PackFormat.ndjson => String.mk (joinNL (docs.map serializeV) ++ ['\n'])

/-- Condition under which an ndjson save can be re-detected as ndjson: the
first record must not itself be a JSON array, since format detection only
looks at the first character of the trimmed file. -/
def ndjsonHeadSafe : List Json → Prop
  | Json.arr _ :: _ => False
  | _ => True

theorem parseLines_map_ser (file : String) :
    ∀ (ds : List Json) (i : Nat), parseLines file i (ds.map serializeV) = Except.ok ds
  | [], _ => rfl
  | d :: ds, i => by
    simp only [List.map_cons, parseLines, jsonParse_serializeV d,
      parseLines_map_ser file ds (i + 1)]
    rfl

theorem serializeV_trim_id (j : Json) : trimCs (serializeV j) = serializeV j := by
  refine trimCs_id _ ?_ (serializeV_last j)
  intro c hc
  obtain ⟨c2, cs, he, _, hws, _⟩ := serializeV_head j
  rw [he] at hc
  simp only [List.head?_cons, Option.some.injEq] at hc
  subst hc
  exact hws

theorem loadPack_savePack (docs : List Json) (fmt : PackFormat) (path : String)
    (h : fmt = PackFormat.ndjson → ndjsonHeadSafe docs) :
    loadPackDocs path (savePackDocs docs fmt) = Except.ok (docs, fmt) := by
  cases fmt with
  | array =>
    unfold savePackDocs loadPackDocs
    have hdata : (String.mk (serializeV (Json.arr docs) ++ ['\n'])).data =
        serializeV (Json.arr docs) ++ ['\n'] := rfl
    rw [hdata]
    have htrim : trimCs (serializeV (Json.arr docs) ++ ['\n']) = serializeV (Json.arr docs) := by
      refine trimCs_canonical _ ?_ (serializeV_last _)
      intro c hc
      obtain ⟨c2, cs, he, _, hws, _⟩ := serializeV_head (Json.arr docs)
      rw [he] at hc
      simp only [List.head?_cons, Option.some.injEq] at hc
      subst hc
      exact hws
    rw [htrim]
    have hne : serializeV (Json.arr docs) ≠ [] := serializeV_ne_nil _
    rw [if_neg hne]
    have hhead : (serializeV (Json.arr docs)).head? = some '[' := by
      rw [show serializeV (Json.arr docs) = '[' :: (serElemsV docs ++ [']']) from by
        simp [serializeV]]
      rfl
    rw [if_pos hhead, jsonParse_serializeV (Json.arr docs)]
  | ndjson =>
    cases docs with
    | nil =>
      unfold savePackDocs loadPackDocs
      have hdata : (String.mk (joinNL (List.map serializeV []) ++ ['\n'])).data = ['\n'] := rfl
      rw [hdata]
      rw [show trimCs ['\n'] = [] from by decide]
      rfl
    | cons d ds =>
      have hsafe : ndjsonHeadSafe (d :: ds) := h rfl
      unfold savePackDocs loadPackDocs
      set pieces := (d :: ds).map serializeV with hpieces
      have hpne : pieces ≠ [] := by simp [hpieces]
      have hmem : ∀ p ∈ pieces, ∃ jj, p = serializeV jj := by
        intro p hp
        obtain ⟨jj, _, rfl⟩ := List.mem_map.mp hp
        exact ⟨jj, rfl⟩
      have hlastp : ∀ p ∈ pieces, ∃ init c, p = init ++ [c] ∧ isTrimWs c = false := by
        intro p hp
        obtain ⟨jj, rfl⟩ := hmem p hp
        exact serializeV_last jj
      have hnonl : ∀ p ∈ pieces, '\n' ∉ p := by
        intro p hp hmem2
        obtain ⟨jj, rfl⟩ := hmem p hp
        exact (serializeV_noNL jj '\n' hmem2).1 rfl
      have hdata : (String.mk (joinNL pieces ++ ['\n'])).data = joinNL pieces ++ ['\n'] := rfl
      rw [hdata]
      have hjoinhead : (joinNL pieces).head? = (serializeV d).head? := by
        rw [hpieces]
        exact joinNL_head (serializeV d) (ds.map serializeV) (serializeV_ne_nil d)
      obtain ⟨c2, cs2, hdser, _, hdws, _, _, _, hdiff⟩ := serializeV_head d
      have htrim : trimCs (joinNL pieces ++ ['\n']) = joinNL pieces := by
        refine trimCs_canonical _ ?_ (joinNL_last pieces hpne hlastp)
        intro c hc
        rw [hjoinhead, hdser] at hc
        simp only [List.head?_cons, Option.some.injEq] at hc
        subst hc
        exact hdws
      rw [htrim]
      have hjne : joinNL pieces ≠ [] := by
        intro hempty
        rw [hempty] at hjoinhead
        rw [hdser] at hjoinhead
        simp at hjoinhead
      rw [if_neg hjne]
      have hnotarr : (joinNL pieces).head? ≠ some '[' := by
        rw [hjoinhead, hdser]
        intro hcb
        rw [List.head?_cons, Option.some_inj] at hcb
        obtain ⟨l, hl⟩ := hdiff.mp hcb
        rw [hl] at hsafe
        exact hsafe
      rw [if_neg hnotarr]
      have hmapid : ∀ (g : List Char → List Char) (qs : List (List Char)),
          (∀ p ∈ qs, g p = p) → qs.map g = qs := by
        intro g qs hqs
        induction qs with
        | nil => rfl
        | cons p ps ihp =>
          simp only [List.map_cons, hqs p (List.mem_cons_self p ps)]
          rw [ihp (fun q hq => hqs q (List.mem_cons_of_mem p hq))]
      have hsplit : splitLines (joinNL pieces) = pieces := by
        unfold splitLines
        rw [splitOnChar_joinNL pieces hpne hnonl]
        refine hmapid _ _ ?_
        intro p hp
        refine dropTrailingCR_id p ?_
        intro hmem2
        obtain ⟨jj, rfl⟩ := hmem p hp
        exact (serializeV_noNL jj '\r' hmem2).2 rfl
      rw [hsplit]
      have htrimmap : pieces.map trimCs = pieces := by
        refine hmapid _ _ ?_
        intro p hp
        obtain ⟨jj, rfl⟩ := hmem p hp
        exact serializeV_trim_id jj
      rw [htrimmap]
      have hfilter : pieces.filter (fun l => !l.isEmpty) = pieces := by
        refine List.filter_eq_self.mpr ?_
        intro p hp
        obtain ⟨jj, rfl⟩ := hmem p hp
        simp [List.isEmpty_iff, serializeV_ne_nil jj]
      rw [hfilter, hpieces]
      rw [parseLines_map_ser]
      rfl


instance {ε α : Type} [DecidableEq ε] [DecidableEq α] : DecidableEq (Except ε α) := fun a b =>
  match a, b with
  | .error e1, .error e2 =>
    if h : e1 = e2 then isTrue (h ▸ rfl) else isFalse (fun hh => h (Except.error.inj hh))
  | .ok v1, .ok v2 =>
    if h : v1 = v2 then isTrue (h ▸ rfl) else isFalse (fun hh => h (Except.ok.inj hh))
  | .error _, .ok _ => isFalse (fun hh => Except.noConfusion hh)
  | .ok _, .error _ => isFalse (fun hh => Except.noConfusion hh)

theorem parseLines_first_err (file : String) :
    ∀ (good : List (List Char)) (bad : List Char) (rest : List (List Char)) (i : Nat),
    (∀ l ∈ good, (jsonParse l).isSome) → jsonParse bad = none →
    parseLines file i (good ++ bad :: rest) =
      Except.error (LoadError.lineParse file (i + good.length + 1))
  | [], bad, rest, i, _, hbad => by
    simp only [List.nil_append, parseLines, hbad, List.length_nil]
  | g :: gs, bad, rest, i, hgood, hbad => by
    have hg := hgood g (List.mem_cons_self g gs)
    obtain ⟨j, hj⟩ := Option.isSome_iff_exists.mp hg
    have ih := parseLines_first_err file gs bad rest (i + 1)
      (fun l hl => hgood l (List.mem_cons_of_mem g hl)) hbad
    simp only [List.cons_append, parseLines, hj, List.length_cons]
    simp only [List.append_eq]
    rw [ih]
    simp only [Except.map]
    have heq : i + 1 + gs.length + 1 = i + (gs.length + 1) + 1 := by omega
    rw [heq]

/-- C5 support: when the trimmed content is non-empty, does not start with
`[`, and the filtered line list splits as `good ++ bad :: rest` with every
line of `good` well-formed and `bad` malformed, the loader reports the error
at position `good.length + 1` with the file basename. -/
theorem loadPackDocs_line_error (path raw : String) (good : List (List Char))
    (bad : List Char) (rest : List (List Char))
    (h1 : trimCs raw.data ≠ [])
    (h2 : (trimCs raw.data).head? ≠ some '[')
    (h3 : ((splitLines (trimCs raw.data)).map trimCs).filter (fun l => !l.isEmpty) =
      good ++ bad :: rest)
    (h4 : ∀ l ∈ good, (jsonParse l).isSome)
    (h5 : jsonParse bad = none) :
    loadPackDocs path raw =
      Except.error (LoadError.lineParse (basename path) (good.length + 1)) := by
  unfold loadPackDocs
  rw [if_neg h1, if_neg h2, h3]
  rw [parseLines_first_err (basename path) good bad rest 0 h4 h5]
  simp [Except.map]


/-! ## JavaScript value helpers

Models of the JS coercions the script applies to record fields. -/

/-- Property access `doc[k]` on a JSON value: objects yield their first
binding for the key, everything else yields `undefined` (`none`). -/
def getField (doc : Json) (k : String) : Option Json :=
  match doc with
  | .obj kvs => (kvs.find? (fun kv => kv.1 == k)).map (fun kv => kv.2)
  | _ => none

/-- Property assignment `doc[k] = v`: replaces an existing binding in
place, otherwise appends in insertion order; no-op on non-objects. -/
def setFieldK : List (String × Json) → String → Json → List (String × Json)
  | [], k, v => [(k, v)]
  | (k1, v1) :: r, k, v => if k1 = k then (k, v) :: r else (k1, v1) :: setFieldK r k v

/-- Assignment at the value level. -/
def setField : Json → String → Json → Json
  | .obj kvs, k, v => .obj (setFieldK kvs k v)
  | j, _, _ => j

/-- JS truthiness of an optional value (`none` models `undefined`). -/
def jsTruthy : Option Json → Bool
  | none => false
  | some .null => false
  | some (.bool b) => b
  | some (.num i) => i != 0
  | some (.str s) => !(s == "")
  | some (.arr _) => true
  | some (.obj _) => true

mutual
/-- Model of JS `String(v)` on the values the packs contain. -/
def jsToString : Json → String
  | .null => "null"
  | .bool true => "true"
  | .bool false => "false"
  | .num i => String.mk (serInt i)
  | .str s => s
  | .arr l => jsArrToString l
  | .obj _ => "[object Object]"
/-- `Array.prototype.toString`: comma-joined elements, `null` rendered
empty. -/
def jsArrToString : List Json → String
  | [] => ""
  | [x] =>
    match x with
    | .null => ""
    | _ => jsToString x
  | x :: y :: r =>
    (match x with
     | .null => ""
     | _ => jsToString x) ++ "," ++ jsArrToString (y :: r)
end

/-- Model of `String(doc?.k ?? "")`: absent and `null` fields coerce to
the empty string. -/
def jsFieldString (doc : Json) (k : String) : String :=
  match getField doc k with
  | none => ""
  | some .null => ""
  | some v => jsToString v

/-! ## Classifier (models of `isSpell`, `isLikelyDoc`,
`detectItemCategory`) -/

/-- Model of `isSpell`: `String(doc?.type ?? "").toLowerCase() === "spell"`. -/
def isSpell (doc : Json) : Bool :=
  toLowerStr (jsFieldString doc "type") == "spell"

/-- Model of `isLikelyDoc`: the entry is an object whose `name` property is
a string with non-blank trim.  `getField` already yields `undefined` on
every non-object, which matches the `typeof doc === "object" &&
typeof doc.name === "string"` guard (arrays have no `name` property). -/
def isLikelyDoc (doc : Json) : Bool :=
  match getField doc "name" with
  | some (.str s) => !(trimCs s.data).isEmpty
  | _ => false

/-- The fixed item subtype whitelist of `detectItemCategory`. -/
def knownSubtypes : List String :=
  ["weapon", "armor", "shield", "cloak", "robe", "boots", "helm", "helmet",
   "ring", "amulet", "staff", "wand"]

/-- Substring test of a word list against the lowercased name, modelling a
`/w1|w2|.../.test(n)` regex of plain alternatives. -/
def nameHas (n : List Char) (pats : List String) : Bool :=
  pats.any (fun p => hasSub p.data n)

/-- Model of `detectItemCategory`: honor a whitelisted explicit subtype,
then try the ordered name keyword patterns, else `"item"`. -/
def detectItemCategory (doc : Json) : String :=
  let n := (toLowerStr (jsFieldString doc "name")).data
  let t := toLowerStr (jsFieldString doc "type")
  if t ≠ "" ∧ t ≠ "spell" ∧ t ∈ knownSubtypes then t
  else if nameHas n ["sword", "blade", "dagger", "axe", "hammer", "mace", "spear", "bow",
      "crossbow", "flail", "halberd"] then "weapon"
  else if nameHas n ["shield", "buckler"] then "shield"
  else if nameHas n ["armor", "breastplate", "cuirass", "chainmail", "mail", "plate",
      "hauberk"] then "armor"
  else if nameHas n ["helm", "helmet", "hood"] then "helmet"
  else if nameHas n ["cloak", "cape", "mantle"] then "cloak"
  else if nameHas n ["robe", "vestment", "tunic"] then "robe"
  else if nameHas n ["boots", "shoes", "greaves"] then "boots"
  else if nameHas n ["gloves", "gauntlets"] then "gloves"
  else if nameHas n ["ring"] then "ring"
  else if nameHas n ["amulet", "pendant", "necklace"] then "amulet"
  else if nameHas n ["staff"] then "staff"
  else if nameHas n ["wand"] then "wand"
  else if nameHas n ["tome", "grimoire", "book"] then "book"
  else if nameHas n ["scroll"] then "scroll"
  else if nameHas n ["potion", "elixir", "vial"] then "potion"
  else "item"

/-! ## Prompt builder (model of `buildPrompt`) -/

/-- Comma-space join, model of `Array.prototype.join(", ")`. -/
def joinCommaSp : List String → String
  | [] => ""
  | [x] => x
  | x :: y :: r => x ++ ", " ++ joinCommaSp (y :: r)

/-- The `name` field of a record, as the string `buildPrompt` reads
(`buildPrompt` is only reached behind the `isLikelyDoc` guard, so the
field is a string there). -/
def docName (doc : Json) : String :=
  match getField doc "name" with
  | some (.str s) => s
  | _ => ""

/-- Model of `buildPrompt`. -/
def buildPrompt (doc : Json) : String :=
  let name := String.mk (trimCs (docName doc).data)
  if isSpell doc then
    joinCommaSp ["fantasy spell concept art",
      "single spell icon on parchment background",
      "magical spell: " ++ name,
      "clean composition, centered subject",
      "NO TEXT, no letters, no numbers, no watermark, no logo"]
  else
    let cat := detectItemCategory doc
    let label := if cat = "item" then "item" else cat
    joinCommaSp ["fantasy " ++ label ++ " concept art",
      "single " ++ label ++ " on parchment background",
      name,
      "clean composition, centered subject",
      "NO TEXT, no letters, no numbers, no watermark, no logo"]

/-! ## File names (models of `sanitizeFileName`, `shortHash`,
`stableIconFileName` and the path helpers) -/

/-- Characters kept verbatim by the `[^a-z0-9]+` replacement. -/
def isAlnumLower (c : Char) : Bool :=
  ('a' ≤ c && c ≤ 'z') || ('0' ≤ c && c ≤ '9')

/-- Replace every maximal run of non-alphanumeric characters by one dash
(model of the non-alphanumeric-run replacement regex); fuel recursion on
the input length so the definition evaluates. -/
def dashRuns : Nat → List Char → List Char
  | 0, _ => []
  | _ + 1, [] => []
  | f + 1, c :: r =>
    if isAlnumLower c then c :: dashRuns f r
    else '-' :: dashRuns f (r.dropWhile (fun d => !isAlnumLower d))

/-- Collapse repeated dashes (model of the dash-run replacement regex). -/
def collapseDash : List Char → List Char
  | [] => []
  | '-' :: '-' :: r => collapseDash ('-' :: r)
  | c :: r => c :: collapseDash r

/-- Strip one leading and one trailing dash (model of the edge-dash
removal regex). -/
def dropEdgeDash (cs : List Char) : List Char :=
  let cs2 :=
    match cs with
    | c :: r => if c = '-' then r else cs
    | [] => []
  match cs2.reverse with
  | c :: r => if c = '-' then r.reverse else cs2
  | [] => cs2

/-- Model of `sanitizeFileName` (the `String(name ?? "")` coercion is done
by the caller model `stableIconFileName`). -/
def sanitizeFileName (name : String) : String :=
  let cs := (trimCs name.data).map Char.toLower
  let cs := cs.filter (fun c => !(c == Char.ofNat 39) && !(c == '"'))
  let cs := dashRuns cs.length cs
  let cs := collapseDash cs
  let cs := dropEdgeDash cs
  String.mk (cs.take 120)

/-- UTF-8 encoding of one scalar value. -/
def utf8Char (c : Char) : List Nat :=
  let n := c.toNat
  if n < 128 then [n]
  else if n < 2048 then [192 + n / 64, 128 + n % 64]
  else if n < 65536 then [224 + n / 4096, 128 + (n / 64) % 64, 128 + n % 64]
  else [240 + n / 262144, 128 + (n / 4096) % 64, 128 + (n / 64) % 64, 128 + n % 64]

/-- UTF-8 bytes of a string. -/
def utf8Bytes (s : String) : List Nat := (s.data.map utf8Char).flatten

/-- Big-endian 8-byte encoding of a length in bits. -/
def be64 (n : Nat) : List Nat :=
  [n / 2 ^ 56 % 256, n / 2 ^ 48 % 256, n / 2 ^ 40 % 256, n / 2 ^ 32 % 256,
   n / 2 ^ 24 % 256, n / 2 ^ 16 % 256, n / 2 ^ 8 % 256, n % 256]

/-- SHA-1 message padding. -/
def sha1Pad (msg : List Nat) : List Nat :=
  let zeros := (64 - (msg.length + 9) % 64) % 64
  msg ++ [128] ++ List.replicate zeros 0 ++ be64 (msg.length * 8)

/-- Big-endian 32-bit words of a padded byte list. -/
def wordsOf : List Nat → List Nat
  | b0 :: b1 :: b2 :: b3 :: r => (((b0 * 256 + b1) * 256 + b2) * 256 + b3) :: wordsOf r
  | _ => []

/-- Split a word list into 16-word blocks (fuel recursion on the length). -/
def chunksOf16 : Nat → List Nat → List (List Nat)
  | 0, _ => []
  | _ + 1, [] => []
  | f + 1, ws => ws.take 16 :: chunksOf16 f (ws.drop 16)

/-- 32-bit left rotation of `x < 2^32`. -/
def rotl32 (k x : Nat) : Nat := (x * 2 ^ k) % 2 ^ 32 + x / 2 ^ (32 - k)

/-- 32-bit complement. -/
def not32 (x : Nat) : Nat := 4294967295 - x

/-- Round function of SHA-1. -/
def sha1F (t b c d : Nat) : Nat :=
  if t < 20 then (b &&& c) ||| (not32 b &&& d)
  else if t < 40 then b ^^^ c ^^^ d
  else if t < 60 then (b &&& c) ||| (b &&& d) ||| (c &&& d)
  else b ^^^ c ^^^ d

/-- Round constants of SHA-1. -/
def sha1K (t : Nat) : Nat :=
  if t < 20 then 1518500249
  else if t < 40 then 1859775393
  else if t < 60 then 2400959708
  else 3395469782

/-- Message-schedule extension: append `fuel` further words. -/
def extendW : Nat → List Nat → List Nat
  | 0, acc => acc
  | f + 1, acc =>
    let n := acc.length
    let w := rotl32 1 ((acc.getD (n - 3) 0) ^^^ (acc.getD (n - 8) 0) ^^^
      (acc.getD (n - 14) 0) ^^^ (acc.getD (n - 16) 0))
    extendW f (acc ++ [w])

/-- Process one 16-word chunk. -/
def sha1ProcessChunk (h : Nat × Nat × Nat × Nat × Nat) (ws16 : List Nat) :
    Nat × Nat × Nat × Nat × Nat :=
  let ws := extendW 64 ws16
  let st := ((List.range 80).zip ws).foldl
    (fun (st : Nat × Nat × Nat × Nat × Nat) (tw : Nat × Nat) =>
      let temp := (rotl32 5 st.1 + sha1F tw.1 st.2.1 st.2.2.1 st.2.2.2.1 +
        st.2.2.2.2 + sha1K tw.1 + tw.2) % 2 ^ 32
      (temp, st.1, rotl32 30 st.2.1, st.2.2.1, st.2.2.2.1))
    (h.1, h.2.1, h.2.2.1, h.2.2.2.1, h.2.2.2.2)
  ((h.1 + st.1) % 2 ^ 32, (h.2.1 + st.2.1) % 2 ^ 32, (h.2.2.1 + st.2.2.1) % 2 ^ 32,
   (h.2.2.2.1 + st.2.2.2.1) % 2 ^ 32, (h.2.2.2.2 + st.2.2.2.2) % 2 ^ 32)

/-- Lowercase hex digest characters of SHA-1 over a byte list. -/
def toHex8 (n : Nat) : List Char :=
  [hexDigitChar (n / 16 ^ 7 % 16), hexDigitChar (n / 16 ^ 6 % 16),
   hexDigitChar (n / 16 ^ 5 % 16), hexDigitChar (n / 16 ^ 4 % 16),
   hexDigitChar (n / 16 ^ 3 % 16), hexDigitChar (n / 16 ^ 2 % 16),
   hexDigitChar (n / 16 % 16), hexDigitChar (n % 16)]

/-- SHA-1 hex digest of a byte list. -/
def sha1HexChars (msg : List Nat) : List Char :=
  let padded := sha1Pad msg
  let ws := wordsOf padded
  let blocks := chunksOf16 ws.length ws
  let h := blocks.foldl sha1ProcessChunk
    (1732584193, 4023233417, 2562383102, 271733878, 3285377520)
  toHex8 h.1 ++ toHex8 h.2.1 ++ toHex8 h.2.2.1 ++ toHex8 h.2.2.2.1 ++ toHex8 h.2.2.2.2

/-- Model of `shortHash`: first 8 hex characters of the SHA-1 of the
UTF-8 bytes of `String(input)`. -/
def shortHash (input : String) : String :=
  String.mk ((sha1HexChars (utf8Bytes input)).take 8)

/-- String form of an optional value under `String(-)`. -/
def jsToStringOpt : Option Json → String
  | some v => jsToString v
  | none => "undefined"

/-- Model of `stableIconFileName`; `uuid` stands for the
`crypto.randomUUID()` fallback, reached only when both `_id` and `name`
are nullish. -/
def stableIconFileName (uuid : String) (doc : Json) : String :=
  let nameV := getField doc "name"
  let base := sanitizeFileName (if jsTruthy nameV then jsToStringOpt nameV else "icon")
  let hashInput :=
    match getField doc "_id" with
    | some .null =>
      (match nameV with
       | some .null => uuid
       | none => uuid
       | some v => jsToString v)
    | none =>
      (match nameV with
       | some .null => uuid
       | none => uuid
       | some v => jsToString v)
    | some v => jsToString v
  let suffix := shortHash hashInput
  if base ≠ "" then base ++ "-" ++ suffix ++ ".png" else suffix ++ ".png"

/-- Model of `REPO_ROOT` (`path.resolve(__dirname, "..")`). -/
def repoRoot : String := "/repo"

/-- Model of `localIconPath`. -/
def localIconPath (kind fileName : String) : String :=
  repoRoot ++ "/icons/generated/" ++ kind ++ "/" ++ fileName

/-- Model of `foundryImgPath`. -/
def foundryImgPath (moduleId kind fileName : String) : String :=
  "modules/" ++ moduleId ++ "/icons/generated/" ++ kind ++ "/" ++ fileName

/-- Model of `path.dirname` on slash-separated paths. -/
def dirname (p : String) : String :=
  match p.data.reverse.dropWhile (fun c => !(c == '/')) with
  | c :: rest => if c = '/' then String.mk rest.reverse else p
  | [] => "."


/-! ## Self-hosted endpoint client (model of the response handling in
`generateWithA1111`) -/

/-- Split on a separator character, returning strings. -/
def jsSplitChar (sep : Char) (s : String) : List String :=
  (splitOnChar sep s.data).map String.mk

/-- Model of `String.prototype.split(sep, limit)`: the result array is
truncated to at most `limit` elements. -/
def jsSplitLimit (s : String) (sep : Char) (limit : Nat) : List String :=
  (jsSplitChar sep s).take limit

/-- The string handed to `Buffer.from(-, "base64")` by
`generateWithA1111`: `b64.split(",", 1)[1]` when the payload contains a
comma, else the payload itself; `none` models `undefined`. -/
def a1111CleanB64 (b64 : String) : Option String :=
  if b64.data.contains ',' then (jsSplitLimit b64 ',' 1)[1]? else some b64

/-- Failures of the response handling: the `"A1111 returned no images."`
throw, and the `TypeError` raised by `Buffer.from(undefined, "base64")`. -/
inductive A1111Err where
  | noImages : A1111Err
  | cleanUndefined : A1111Err
  deriving DecidableEq

/-- Model of `j?.images?.[0]`. -/
def a1111Extract (resp : Json) : Option Json :=
  match getField resp "images" with
  | some (Json.arr (x :: _)) => some x
  | _ => none

/-- Model of the post-HTTP path of `generateWithA1111`: extract the first
image string, fail on a falsy payload, then compute the string passed to
base64 decoding. -/
def a1111DecodeInput (resp : Json) : Except A1111Err String :=
  match a1111Extract resp with
  | some (Json.str s) =>
    if s = "" then Except.error A1111Err.noImages
    else
      match a1111CleanB64 s with
      | some c => Except.ok c
      | none => Except.error A1111Err.cleanUndefined
  | _ => Except.error A1111Err.noImages

/-! ## Orchestration driver (model of `processPackFile`) -/

/-- Run configuration: module id plus the `LIMIT`, `OVERWRITE` and
`DRYRUN` environment options (`none` limit models `Infinity`). -/
structure Cfg where
  moduleId : String
  limit : Option Nat
  overwrite : Bool
  dryrun : Bool
  deriving DecidableEq

/-- Disk and network effects accumulated by a run: prompts sent to the
generator, icon files written, directories created by `ensureDir`. -/
structure Eff where
  genCalls : List String
  writes : List (String × List Nat)
  dirs : List String
  deriving DecidableEq

/-- Loop state: the `processed` and `changed` counters plus effects. -/
structure St where
  processed : Nat
  changed : Nat
  eff : Eff
  deriving DecidableEq

/-- The initial loop state. -/
def initSt : St := ⟨0, 0, ⟨[], [], []⟩⟩

/-- Model of `processed >= LIMIT` (false when `LIMIT` is `Infinity`). -/
def atLimit : Option Nat → Nat → Bool
  | none, _ => false
  | some l, p => l ≤ p

/-- Model of `exists(p)` during the run: a path exists when it existed on
disk at start or the run itself wrote the file or created the directory. -/
def existsAt (fs0 : String → Bool) (st : St) (p : String) : Bool :=
  fs0 p || st.eff.writes.any (fun w => w.1 == p) || st.eff.dirs.contains p

/-- Model of `ensureDir`: record a `mkdirSync` when the path is missing. -/
def ensureDirSt (fs0 : String → Bool) (st : St) (p : String) : St :=
  if existsAt fs0 st p then st
  else { st with eff := { st.eff with dirs := st.eff.dirs ++ [p] } }

/-- Model of the record loop of `processPackFile`.  `gen` is the external
image generator (prompt to PNG bytes), `fs0` the initial on-disk existence
predicate, `uuid` the `crypto.randomUUID()` value for the unreachable
fallback of `stableIconFileName`.  Returns the final state and the
resulting document list (the in-place `doc.img` mutations). -/
def procLoop (cfg : Cfg) (gen : String → List Nat) (fs0 : String → Bool) (uuid : String) :
    List Json → St → St × List Json
  | [], st => (st, [])
  | doc :: rest, st =>
    if atLimit cfg.limit st.processed then (st, doc :: rest)
    else if !isLikelyDoc doc then
      let r := procLoop cfg gen fs0 uuid rest st
      (r.1, doc :: r.2)
    else
      let kind := if isSpell doc then "spells" else "items"
      let fileName := stableIconFileName uuid doc
      let iconDiskPath := localIconPath kind fileName
      let iconFoundryPath := foundryImgPath cfg.moduleId kind fileName
      let st1 := ensureDirSt fs0 st (dirname iconDiskPath)
      if (getField doc "img" = some (Json.str iconFoundryPath) ∧
          existsAt fs0 st1 iconDiskPath = true) ∧ cfg.overwrite = false then
        let r := procLoop cfg gen fs0 uuid rest { st1 with processed := st1.processed + 1 }
        (r.1, doc :: r.2)
      else
        let prompt := buildPrompt doc
        if cfg.dryrun = false then
          let png := gen prompt
          let st2 := { st1 with
            processed := st1.processed + 1,
            changed := st1.changed + 1,
            eff := { st1.eff with
              genCalls := st1.eff.genCalls ++ [prompt],
              writes := st1.eff.writes ++ [(iconDiskPath, png)] } }
          let doc2 := setField doc "img" (Json.str iconFoundryPath)
          let r := procLoop cfg gen fs0 uuid rest st2
          (r.1, doc2 :: r.2)
        else
          let r := procLoop cfg gen fs0 uuid rest { st1 with processed := st1.processed + 1 }
          (r.1, doc :: r.2)

/-- Result of `processPackFile`: final counters and effects, the resulting
document list, and the pack rewrite content when one happens. -/
structure RunResult where
  st : St
  outDocs : List Json
  packWrite : Option String
  deriving DecidableEq

/-- Model of `processPackFile`: load, run the record loop, and rewrite the
pack only when not in dry-run and at least one record changed. -/
def processPackFile (cfg : Cfg) (gen : String → List Nat) (fs0 : String → Bool)
    (uuid : String) (path raw : String) : Except LoadError RunResult :=
  (loadPackDocs path raw).map (fun pr =>
    let r := procLoop cfg gen fs0 uuid pr.1 initSt
    { st := r.1, outDocs := r.2,
      packWrite :=
        if cfg.dryrun = false ∧ r.1.changed > 0 then some (savePackDocs r.2 pr.2)
        else none })


/-! ## Substring support lemmas -/

theorem isPre_append_self : ∀ (pat post : List Char), isPre pat (pat ++ post) = true
  | [], _ => rfl
  | c :: t, post => by
    simp [isPre, isPre_append_self t post]

theorem hasSub_infix : ∀ (pre pat post : List Char), hasSub pat (pre ++ (pat ++ post)) = true
  | [], pat, post => by
    rw [List.nil_append]
    cases h : pat ++ post with
    | nil =>
      have hp : pat = [] := by
        cases pat with
        | nil => rfl
        | cons a t => simp at h
      rw [hp]
      rfl
    | cons c t =>
      rw [hasSub, ← h, isPre_append_self]
      rfl
  | c :: pre, pat, post => by
    rw [List.cons_append, hasSub, hasSub_infix pre pat post]
    simp

/-! ## Claim C2 -/

/-- C2: the claim says a data-URI prefix before a comma is stripped and the
remaining base64 payload decoded.  The code computes
`b64.split(",", 1)[1]`, but a JS split limit truncates the result array,
so element 1 is always `undefined` and `Buffer.from(undefined, "base64")`
throws.  This theorem evaluates the model at the failing response: the
result is the `cleanUndefined` crash, even though the intended payload
(the part after the comma, second conjunct) is present. -/
theorem c2_split_limit_bug :
    a1111DecodeInput (Json.obj [("images",
      Json.arr [Json.str ("data:image/png;base64,iVBORw0KGgo=")])]) =
      Except.error A1111Err.cleanUndefined ∧
    (jsSplitChar ',' ("data:image/png;base64,iVBORw0KGgo="))[1]? =
      some ("iVBORw0KGgo=") := by
  constructor
  · decide
  · decide

/-! ## Claim C7 -/

/-- Case-insensitive string comparison (both sides lowercased). -/
def ciEqStr (a b : String) : Bool := toLowerStr a == toLowerStr b

/-- C7: a record is classified as a spell exactly when its `type` field,
compared case-insensitively, equals `"spell"`, independently of the name. -/
theorem c7_spell_iff (doc : Json) :
    isSpell doc = ciEqStr (jsFieldString doc "type") ("spell") := by
  unfold isSpell ciEqStr
  rw [show toLowerStr ("spell") = "spell" from by decide]

/-! ## Claim C10 -/

theorem procLoop_atLimit (cfg : Cfg) (gen : String → List Nat) (fs0 : String → Bool)
    (uuid : String) (docs : List Json) (st : St)
    (h : atLimit cfg.limit st.processed = true) :
    procLoop cfg gen fs0 uuid docs st = (st, docs) := by
  cases docs with
  | nil => rfl
  | cons d rest => simp [procLoop, h]

/-- C10: an entry that is not an object with a non-blank string name is
skipped whole: the loop state (counters, generator calls, file and
directory effects) threads through unchanged, the entry reappears
unmodified in the output document list (hence in any written-back file),
and it does not count toward the processing limit. -/
theorem c10_skip_non_records (cfg : Cfg) (gen : String → List Nat) (fs0 : String → Bool)
    (uuid : String) (bad : Json) (rest : List Json) (st : St)
    (h : isLikelyDoc bad = false) :
    procLoop cfg gen fs0 uuid (bad :: rest) st =
      ((procLoop cfg gen fs0 uuid rest st).1,
        bad :: (procLoop cfg gen fs0 uuid rest st).2) := by
  cases hl : atLimit cfg.limit st.processed with
  | true =>
    rw [procLoop_atLimit cfg gen fs0 uuid rest st hl]
    simp [procLoop, hl]
  | false =>
    simp [procLoop, hl, h]

/-- C10 witness: a `null` entry before a record passes through unchanged. -/
theorem c10_skip_non_records_witness :
    isLikelyDoc Json.null = false ∧
    procLoop ⟨"mod", none, false, false⟩ (fun _ => []) (fun _ => false) ("")
        (Json.null :: [] : List Json) initSt =
      ((procLoop ⟨"mod", none, false, false⟩ (fun _ => []) (fun _ => false) ("") [] initSt).1,
        Json.null :: (procLoop ⟨"mod", none, false, false⟩ (fun _ => [])
          (fun _ => false) ("") [] initSt).2) :=
  ⟨by decide, c10_skip_non_records ⟨"mod", none, false, false⟩ (fun _ => []) (fun _ => false)
    ("") Json.null [] initSt (by decide)⟩

/-! ## Claim C8 -/

/-- C8 counterexample: two distinct records with the same name and no
`_id` receive the same generated icon file name, so same-named records can
collide.  Both hash `String(doc.name)`, so the suffixes agree. -/
theorem c8_counterexample :
    (Json.obj [("name", Json.str "Sword")]) ≠
      (Json.obj [("name", Json.str "Sword"), ("type", Json.str "weapon")]) ∧
    getField (Json.obj [("name", Json.str "Sword")]) ("name") =
      getField (Json.obj [("name", Json.str "Sword"), ("type", Json.str "weapon")]) ("name") ∧
    stableIconFileName ("") (Json.obj [("name", Json.str "Sword")]) =
      stableIconFileName ("") (Json.obj [("name", Json.str "Sword"),
        ("type", Json.str "weapon")]) := by
  refine ⟨by decide, by decide, by decide⟩

/-- C8 (amended): the generated icon file name is a deterministic function
of the record name and `_id` fields alone — any two records agreeing on
those two fields (with a non-empty string name) receive the same file
name on every run, whatever the `randomUUID` draws are.  Distinctness of
same-named records is NOT guaranteed (see the counterexample): same-named
records are separated only by the 8-character hash of `_id`, and records
without `_id` hash the shared name. -/
theorem c8_deterministic (u1 u2 : String) (d1 d2 : Json)
    (hname : getField d1 ("name") = getField d2 ("name"))
    (hid : getField d1 ("_id") = getField d2 ("_id"))
    (hs : ∃ s, getField d1 ("name") = some (Json.str s) ∧ s ≠ "") :
    stableIconFileName u1 d1 = stableIconFileName u2 d2 := by
  obtain ⟨s, hs1, hsne⟩ := hs
  have hs2 : getField d2 ("name") = some (Json.str s) := hname ▸ hs1
  unfold stableIconFileName
  rw [hname, hid, hs2]

/-- C8 witness: determinism applied to a concrete record. -/
theorem c8_deterministic_witness :
    stableIconFileName ("aaaa") (Json.obj [("name", Json.str "Torch")]) =
      stableIconFileName ("bbbb") (Json.obj [("name", Json.str "Torch")]) :=
  c8_deterministic ("aaaa") ("bbbb") (Json.obj [("name", Json.str "Torch")])
    (Json.obj [("name", Json.str "Torch")]) rfl rfl ⟨"Torch", rfl, by decide⟩

/-! ## Claim C9 -/

/-- C9 counterexample: the record `{"name":"Weapon of the Adept"}` does
not classify to category `"weapon"` — no keyword pattern contains the
word `weapon` (it is only a category name), and none of the actual
keywords occurs in the name — so the category is `"item"` and the prompt
embeds `single item on parchment background`, not `single weapon ...`. -/
theorem c9_counterexample :
    detectItemCategory (Json.obj [("name", Json.str "Weapon of the Adept")]) = "item" ∧
    strHasSub (buildPrompt (Json.obj [("name", Json.str "Weapon of the Adept")]))
      ("single weapon on parchment background") = false ∧
    strHasSub (buildPrompt (Json.obj [("name", Json.str "Weapon of the Adept")]))
      ("single item on parchment background, Weapon of the Adept") = true := by
  refine ⟨by decide, by decide, by decide⟩

/-- C9 (amended): for every non-spell record the prompt embeds the
resolved category label and the trimmed name phrased as
`single <category> on parchment background, <name>`; for the record
`{"name":"Weapon of the Adept"}` the resolved category is `"item"`
(see the counterexample), so the embedded phrase is
`single item on parchment background, Weapon of the Adept`. -/
theorem c9_item_prompt (doc : Json) (h : isSpell doc = false) :
    strHasSub (buildPrompt doc)
      ("single " ++ detectItemCategory doc ++ " on parchment background, " ++
        String.mk (trimCs (docName doc).data)) = true := by
  have hlabel : (if detectItemCategory doc = "item" then "item" else detectItemCategory doc) =
      detectItemCategory doc := by
    by_cases hc : detectItemCategory doc = "item"
    · rw [if_pos hc, hc]
    · rw [if_neg hc]
  have hbp : buildPrompt doc = joinCommaSp
      ["fantasy " ++ detectItemCategory doc ++ " concept art",
       "single " ++ detectItemCategory doc ++ " on parchment background",
       String.mk (trimCs (docName doc).data),
       "clean composition, centered subject",
       "NO TEXT, no letters, no numbers, no watermark, no logo"] := by
    unfold buildPrompt
    rw [if_neg (by simp [h])]
    dsimp only
    rw [hlabel]
  rw [hbp]
  unfold strHasSub
  have key := hasSub_infix
    (("fantasy " ++ detectItemCategory doc ++ " concept art, ").data)
    (("single " ++ detectItemCategory doc ++ " on parchment background, " ++
      String.mk (trimCs (docName doc).data)).data)
    ((", clean composition, centered subject, NO TEXT, no letters, no numbers, no watermark, no logo").data)
  rw [show (joinCommaSp ["fantasy " ++ detectItemCategory doc ++ " concept art",
      "single " ++ detectItemCategory doc ++ " on parchment background",
      String.mk (trimCs (docName doc).data),
      "clean composition, centered subject",
      "NO TEXT, no letters, no numbers, no watermark, no logo"]) =
    ("fantasy " ++ detectItemCategory doc ++ " concept art, ") ++
      (("single " ++ detectItemCategory doc ++ " on parchment background, " ++
        String.mk (trimCs (docName doc).data)) ++
      (", clean composition, centered subject, NO TEXT, no letters, no numbers, no watermark, no logo")) from by
    simp [joinCommaSp, String.ext_iff, String.data_append]]
  rw [show (("fantasy " ++ detectItemCategory doc ++ " concept art, ") ++
      (("single " ++ detectItemCategory doc ++ " on parchment background, " ++
        String.mk (trimCs (docName doc).data)) ++
      (", clean composition, centered subject, NO TEXT, no letters, no numbers, no watermark, no logo"))).data =
    ("fantasy " ++ detectItemCategory doc ++ " concept art, ").data ++
      ((("single " ++ detectItemCategory doc ++ " on parchment background, " ++
        String.mk (trimCs (docName doc).data))).data ++
      ((", clean composition, centered subject, NO TEXT, no letters, no numbers, no watermark, no logo")).data) from by
    simp [String.data_append]]
  exact key

/-- C9 witness: the amended prompt-shape theorem at a concrete record. -/
theorem c9_item_prompt_witness :
    strHasSub (buildPrompt (Json.obj [("name", Json.str "Iron Sword")]))
      ("single " ++ detectItemCategory (Json.obj [("name", Json.str "Iron Sword")]) ++
        " on parchment background, " ++
        String.mk (trimCs (docName (Json.obj [("name", Json.str "Iron Sword")])).data)) = true :=
  c9_item_prompt (Json.obj [("name", Json.str "Iron Sword")]) (by decide)


/-! ## Claim C3 -/

/-- C3: when a record already points at its deterministic icon path, the
icon file exists on disk, and overwrite is not set, the driver skips the
record: no generator call, no file write, no directory creation, the
record itself unchanged in the output — the loop merely counts it as
processed and moves on.  The directory hypothesis `hdir` reflects that on
a real filesystem a file can only exist inside an existing directory, so
the preceding `ensureDir` is a no-op. -/
theorem c3_skip_existing (cfg : Cfg) (gen : String → List Nat) (fs0 : String → Bool)
    (uuid : String) (doc : Json) (rest : List Json) (st : St)
    (hlim : atLimit cfg.limit st.processed = false)
    (hdoc : isLikelyDoc doc = true)
    (himg : getField doc ("img") = some (Json.str (foundryImgPath cfg.moduleId
      (if isSpell doc then "spells" else "items") (stableIconFileName uuid doc))))
    (hfile : fs0 (localIconPath (if isSpell doc then "spells" else "items")
      (stableIconFileName uuid doc)) = true)
    (hdir : fs0 (dirname (localIconPath (if isSpell doc then "spells" else "items")
      (stableIconFileName uuid doc))) = true)
    (hov : cfg.overwrite = false) :
    procLoop cfg gen fs0 uuid (doc :: rest) st =
      ((procLoop cfg gen fs0 uuid rest { st with processed := st.processed + 1 }).1,
        doc :: (procLoop cfg gen fs0 uuid rest
          { st with processed := st.processed + 1 }).2) := by
  have hdirst : ensureDirSt fs0 st (dirname (localIconPath
      (if isSpell doc then "spells" else "items") (stableIconFileName uuid doc))) = st := by
    unfold ensureDirSt
    rw [if_pos (by simp [existsAt, hdir])]
  simp only [procLoop, hlim, hdoc, Bool.not_true, Bool.false_eq_true, if_false, hdirst]
  rw [if_pos ⟨⟨himg, by simp [existsAt, hfile]⟩, hov⟩]

/-- C3 witness: a concrete already-converted record is skipped by the
loop.  The record carries exactly the deterministic `img` path and the
filesystem reports every path as existing. -/
theorem c3_skip_existing_witness :
    procLoop ⟨"mod", none, false, false⟩ (fun _ => [0]) (fun _ => true) ("")
        (setField (Json.obj [("name", Json.str "Torch")]) ("img")
          (Json.str (foundryImgPath ("mod") ("items")
            (stableIconFileName ("") (setField (Json.obj [("name", Json.str "Torch")]) ("img")
              (Json.str ("x")))))) :: []) initSt =
      ((procLoop ⟨"mod", none, false, false⟩ (fun _ => [0]) (fun _ => true) ("") []
          { initSt with processed := initSt.processed + 1 }).1,
        (setField (Json.obj [("name", Json.str "Torch")]) ("img")
          (Json.str (foundryImgPath ("mod") ("items")
            (stableIconFileName ("") (setField (Json.obj [("name", Json.str "Torch")]) ("img")
              (Json.str ("x"))))))) ::
          (procLoop ⟨"mod", none, false, false⟩ (fun _ => [0]) (fun _ => true) ("") []
            { initSt with processed := initSt.processed + 1 }).2) := by
  refine c3_skip_existing ⟨"mod", none, false, false⟩ (fun _ => [0]) (fun _ => true) ("")
    _ [] initSt (by decide) (by decide) ?_ rfl rfl rfl
  decide

/-! ## Claim C4 -/

theorem ensureDirSt_fields (fs0 : String → Bool) (st : St) (p : String) :
    (ensureDirSt fs0 st p).eff.genCalls = st.eff.genCalls ∧
    (ensureDirSt fs0 st p).eff.writes = st.eff.writes ∧
    (ensureDirSt fs0 st p).changed = st.changed ∧
    (ensureDirSt fs0 st p).processed = st.processed := by
  unfold ensureDirSt
  by_cases h : existsAt fs0 st p = true
  · rw [if_pos h]
    exact ⟨rfl, rfl, rfl, rfl⟩
  · rw [if_neg h]
    exact ⟨rfl, rfl, rfl, rfl⟩

theorem procLoop_dryrun (cfg : Cfg) (h : cfg.dryrun = true) (gen : String → List Nat)
    (fs0 : String → Bool) (uuid : String) :
    ∀ (docs : List Json) (st : St),
    (procLoop cfg gen fs0 uuid docs st).1.eff.genCalls = st.eff.genCalls ∧
    (procLoop cfg gen fs0 uuid docs st).1.eff.writes = st.eff.writes ∧
    (procLoop cfg gen fs0 uuid docs st).1.changed = st.changed ∧
    (procLoop cfg gen fs0 uuid docs st).2 = docs
  | [], st => by simp [procLoop]
  | doc :: rest, st => by
    have hdr : cfg.dryrun = false ↔ False := by simp [h]
    by_cases hlim : atLimit cfg.limit st.processed = true
    · simp [procLoop, hlim]
    · rw [Bool.not_eq_true] at hlim
      by_cases hdoc : isLikelyDoc doc = true
      · set dirP := dirname (localIconPath (if isSpell doc then "spells" else "items")
          (stableIconFileName uuid doc)) with hdirP
        have hfields := ensureDirSt_fields fs0 st dirP
        by_cases hok : (getField doc ("img") = some (Json.str (foundryImgPath cfg.moduleId
            (if isSpell doc then "spells" else "items") (stableIconFileName uuid doc))) ∧
            existsAt fs0 (ensureDirSt fs0 st dirP) (localIconPath
              (if isSpell doc then "spells" else "items")
              (stableIconFileName uuid doc)) = true) ∧ cfg.overwrite = false
        · have ih := procLoop_dryrun cfg h gen fs0 uuid rest
            { ensureDirSt fs0 st dirP with processed := (ensureDirSt fs0 st dirP).processed + 1 }
          simp only [procLoop, hlim, hdoc, Bool.not_true, Bool.false_eq_true, if_false,
            ← hdirP, if_pos hok]
          refine ⟨?_, ?_, ?_, ?_⟩
          · rw [ih.1]
            exact hfields.1
          · rw [ih.2.1]
            exact hfields.2.1
          · rw [ih.2.2.1]
            exact hfields.2.2.1
          · rw [ih.2.2.2]
        · have ih := procLoop_dryrun cfg h gen fs0 uuid rest
            { ensureDirSt fs0 st dirP with processed := (ensureDirSt fs0 st dirP).processed + 1 }
          simp only [procLoop, hlim, hdoc, Bool.not_true, Bool.false_eq_true, if_false,
            ← hdirP, if_neg hok, hdr]
          refine ⟨?_, ?_, ?_, ?_⟩
          · rw [ih.1]
            exact hfields.1
          · rw [ih.2.1]
            exact hfields.2.1
          · rw [ih.2.2.1]
            exact hfields.2.2.1
          · rw [ih.2.2.2]
      · have ih := procLoop_dryrun cfg h gen fs0 uuid rest st
        rw [Bool.not_eq_true] at hdoc
        simp [procLoop, hlim, hdoc, ih.1, ih.2.1, ih.2.2.1, ih.2.2.2]

/-- C4 counterexample: in dry-run mode the driver still creates the icon
directory — `ensureDir` runs before the dry-run check — so disk state IS
created.  On a one-record pack over an empty filesystem the run performs
no generator call, writes no file and rewrites no pack, but its directory
effect list is `["/repo/icons/generated/items"]`, which is non-empty. -/
theorem c4_counterexample :
    (processPackFile ⟨"mod", none, false, true⟩ (fun _ => []) (fun _ => false) ("")
      ("packs/items.db") ("\x7b\"name\":\"Torch\"\x7d")).map
        (fun r => (r.st.eff.genCalls, r.st.eff.writes, r.st.eff.dirs, r.packWrite)) =
      Except.ok ([], [], ["/repo/icons/generated/items"], none) ∧
    (["/repo/icons/generated/items"] : List String) ≠ [] := by
  constructor
  · decide
  · decide

/-- C4 (amended): with the dry-run flag set, a run performs no generator
call, writes no icon file, rewrites no data file, and leaves every record
unchanged — but it can still create icon directories, because `ensureDir`
runs before the dry-run check (see the counterexample). -/
theorem c4_dryrun_no_writes (cfg : Cfg) (gen : String → List Nat) (fs0 : String → Bool)
    (uuid : String) (path raw : String) (r : RunResult)
    (h : cfg.dryrun = true)
    (hr : processPackFile cfg gen fs0 uuid path raw = Except.ok r) :
    r.st.eff.genCalls = [] ∧ r.st.eff.writes = [] ∧ r.packWrite = none ∧
    ∃ fmt, loadPackDocs path raw = Except.ok (r.outDocs, fmt) := by
  unfold processPackFile at hr
  cases hload : loadPackDocs path raw with
  | error e =>
    rw [hload] at hr
    simp [Except.map] at hr
  | ok pr =>
    rw [hload] at hr
    simp only [Except.map, Except.ok.injEq] at hr
    have hloop := procLoop_dryrun cfg h gen fs0 uuid pr.1 initSt
    subst hr
    refine ⟨hloop.1, hloop.2.1, ?_, ⟨pr.2, ?_⟩⟩
    · dsimp only
      rw [if_neg]
      intro hcontra
      rw [h] at hcontra
      exact absurd hcontra.1 (by decide)
    · dsimp only
      rw [hloop.2.2.2]

/-- C4 witness: the dry-run theorem applied to a one-record ndjson pack
over an empty filesystem. -/
theorem c4_dryrun_no_writes_witness :
    processPackFile ⟨"mod", none, false, true⟩ (fun _ => []) (fun _ => false) ("")
        ("packs/items.db") ("\x7b\"name\":\"Torch\"\x7d") =
      Except.ok ⟨⟨1, 0, ⟨[], [], ["/repo/icons/generated/items"]⟩⟩,
        [Json.obj [("name", Json.str "Torch")]], none⟩ ∧
    ((⟨⟨1, 0, ⟨[], [], ["/repo/icons/generated/items"]⟩⟩,
        [Json.obj [("name", Json.str "Torch")]], none⟩ : RunResult).st.eff.genCalls = [] ∧
      (⟨⟨1, 0, ⟨[], [], ["/repo/icons/generated/items"]⟩⟩,
        [Json.obj [("name", Json.str "Torch")]], none⟩ : RunResult).st.eff.writes = [] ∧
      (⟨⟨1, 0, ⟨[], [], ["/repo/icons/generated/items"]⟩⟩,
        [Json.obj [("name", Json.str "Torch")]], none⟩ : RunResult).packWrite = none ∧
      ∃ fmt, loadPackDocs ("packs/items.db") ("\x7b\"name\":\"Torch\"\x7d") =
        Except.ok ((⟨⟨1, 0, ⟨[], [], ["/repo/icons/generated/items"]⟩⟩,
          [Json.obj [("name", Json.str "Torch")]], none⟩ : RunResult).outDocs, fmt)) := by
  have hpr : processPackFile ⟨"mod", none, false, true⟩ (fun _ => []) (fun _ => false) ("")
      ("packs/items.db") ("\x7b\"name\":\"Torch\"\x7d") =
      Except.ok ⟨⟨1, 0, ⟨[], [], ["/repo/icons/generated/items"]⟩⟩,
        [Json.obj [("name", Json.str "Torch")]], none⟩ := by decide
  exact ⟨hpr, c4_dryrun_no_writes _ _ _ _ _ _ _ rfl hpr⟩

/-! ## Claim C6 -/

/-- The ordered keyword patterns of the name heuristics, with their
categories, exactly in source order (spec side of claim C6). -/
def keywordPatterns : List (List String × String) :=
  [(["sword", "blade", "dagger", "axe", "hammer", "mace", "spear", "bow", "crossbow", "flail", "halberd"], "weapon"),
   (["shield", "buckler"], "shield"),
   (["armor", "breastplate", "cuirass", "chainmail", "mail", "plate", "hauberk"], "armor"),
   (["helm", "helmet", "hood"], "helmet"),
   (["cloak", "cape", "mantle"], "cloak"),
   (["robe", "vestment", "tunic"], "robe"),
   (["boots", "shoes", "greaves"], "boots"),
   (["gloves", "gauntlets"], "gloves"),
   (["ring"], "ring"),
   (["amulet", "pendant", "necklace"], "amulet"),
   (["staff"], "staff"),
   (["wand"], "wand"),
   (["tome", "grimoire", "book"], "book"),
   (["scroll"], "scroll"),
   (["potion", "elixir", "vial"], "potion")]

/-- First-match keyword lookup over the ordered patterns, defaulting to
`"item"` (spec side of claim C6). -/
def keywordCategory (n : List Char) : String :=
  match keywordPatterns.find? (fun pr => nameHas n pr.1) with
  | some pr => pr.2
  | none => "item"

/-- C6: for a non-spell record the category is resolved in the claimed
order: a `type` (lowercased) in the fixed known-subtype set is used
directly; otherwise the ordered case-insensitive keyword patterns are
tried against the name with the first match winning, defaulting to
`"item"` — and in particular a name containing `"sword"` (the claimed
`"Sword"` lowercases to this) with an unrecognized type resolves to
`"weapon"`. -/
theorem c6_category_order (doc : Json) (h : isSpell doc = false) :
    (detectItemCategory doc =
      if toLowerStr (jsFieldString doc "type") ∈ knownSubtypes
      then toLowerStr (jsFieldString doc "type")
      else keywordCategory (toLowerStr (jsFieldString doc "name")).data) ∧
    (hasSub ("sword").data (toLowerStr (jsFieldString doc "name")).data = true →
      toLowerStr (jsFieldString doc "type") ∉ knownSubtypes →
      detectItemCategory doc = "weapon") := by
  set t := toLowerStr (jsFieldString doc "type") with hts
  set n := (toLowerStr (jsFieldString doc "name")).data with hns
  have ht : ¬(t = "spell") := by
    intro hc
    unfold isSpell at h
    rw [← hts, hc] at h
    simp at h
  have hmain : detectItemCategory doc =
      if t ∈ knownSubtypes then t else keywordCategory n := by
    by_cases hmem : t ∈ knownSubtypes
    · have hne : ¬(t = "") := by
        intro hc
        rw [hc] at hmem
        simp [knownSubtypes] at hmem
      rw [if_pos hmem]
      unfold detectItemCategory
      rw [if_pos ⟨hne, ht, hmem⟩]
    · rw [if_neg hmem]
      unfold detectItemCategory
      rw [if_neg (fun hc => hmem hc.2.2)]
      unfold keywordCategory keywordPatterns
      rw [← hns]
      simp only [List.find?_cons]
      by_cases h1 : nameHas n ["sword", "blade", "dagger", "axe", "hammer", "mace", "spear", "bow", "crossbow", "flail", "halberd"] = true
      · rw [if_pos h1]
        simp only [h1, if_true]
      simp only [Bool.not_eq_true] at h1
      rw [h1]
      simp only [Bool.false_eq_true, if_false]
      by_cases h2 : nameHas n ["shield", "buckler"] = true
      · rw [if_pos h2]
        simp only [h2, if_true]
      simp only [Bool.not_eq_true] at h2
      rw [h2]
      simp only [Bool.false_eq_true, if_false]
      by_cases h3 : nameHas n ["armor", "breastplate", "cuirass", "chainmail", "mail", "plate", "hauberk"] = true
      · rw [if_pos h3]
        simp only [h3, if_true]
      simp only [Bool.not_eq_true] at h3
      rw [h3]
      simp only [Bool.false_eq_true, if_false]
      by_cases h4 : nameHas n ["helm", "helmet", "hood"] = true
      · rw [if_pos h4]
        simp only [h4, if_true]
      simp only [Bool.not_eq_true] at h4
      rw [h4]
      simp only [Bool.false_eq_true, if_false]
      by_cases h5 : nameHas n ["cloak", "cape", "mantle"] = true
      · rw [if_pos h5]
        simp only [h5, if_true]
      simp only [Bool.not_eq_true] at h5
      rw [h5]
      simp only [Bool.false_eq_true, if_false]
      by_cases h6 : nameHas n ["robe", "vestment", "tunic"] = true
      · rw [if_pos h6]
        simp only [h6, if_true]
      simp only [Bool.not_eq_true] at h6
      rw [h6]
      simp only [Bool.false_eq_true, if_false]
      by_cases h7 : nameHas n ["boots", "shoes", "greaves"] = true
      · rw [if_pos h7]
        simp only [h7, if_true]
      simp only [Bool.not_eq_true] at h7
      rw [h7]
      simp only [Bool.false_eq_true, if_false]
      by_cases h8 : nameHas n ["gloves", "gauntlets"] = true
      · rw [if_pos h8]
        simp only [h8, if_true]
      simp only [Bool.not_eq_true] at h8
      rw [h8]
      simp only [Bool.false_eq_true, if_false]
      by_cases h9 : nameHas n ["ring"] = true
      · rw [if_pos h9]
        simp only [h9, if_true]
      simp only [Bool.not_eq_true] at h9
      rw [h9]
      simp only [Bool.false_eq_true, if_false]
      by_cases h10 : nameHas n ["amulet", "pendant", "necklace"] = true
      · rw [if_pos h10]
        simp only [h10, if_true]
      simp only [Bool.not_eq_true] at h10
      rw [h10]
      simp only [Bool.false_eq_true, if_false]
      by_cases h11 : nameHas n ["staff"] = true
      · rw [if_pos h11]
        simp only [h11, if_true]
      simp only [Bool.not_eq_true] at h11
      rw [h11]
      simp only [Bool.false_eq_true, if_false]
      by_cases h12 : nameHas n ["wand"] = true
      · rw [if_pos h12]
        simp only [h12, if_true]
      simp only [Bool.not_eq_true] at h12
      rw [h12]
      simp only [Bool.false_eq_true, if_false]
      by_cases h13 : nameHas n ["tome", "grimoire", "book"] = true
      · rw [if_pos h13]
        simp only [h13, if_true]
      simp only [Bool.not_eq_true] at h13
      rw [h13]
      simp only [Bool.false_eq_true, if_false]
      by_cases h14 : nameHas n ["scroll"] = true
      · rw [if_pos h14]
        simp only [h14, if_true]
      simp only [Bool.not_eq_true] at h14
      rw [h14]
      simp only [Bool.false_eq_true, if_false]
      by_cases h15 : nameHas n ["potion", "elixir", "vial"] = true
      · rw [if_pos h15]
        simp only [h15, if_true]
      simp only [Bool.not_eq_true] at h15
      rw [h15]
      simp only [Bool.false_eq_true, if_false]
      rfl
  refine ⟨hmain, ?_⟩
  intro hsword hmem
  rw [hmain, if_neg hmem]
  unfold keywordCategory keywordPatterns
  have h1 : nameHas n ["sword", "blade", "dagger", "axe", "hammer", "mace", "spear", "bow", "crossbow", "flail", "halberd"] = true := by
    unfold nameHas
    simp only [List.any_cons]
    rw [show hasSub ("sword").data n = true from hsword]
    rfl
  simp only [List.find?_cons, h1, if_true]

/-- C6 witness: a record with an unrecognized type and a sword name. -/
theorem c6_category_order_witness :
    (detectItemCategory (Json.obj [("name", Json.str "Great Sword"),
        ("type", Json.str "equipment")]) =
      if toLowerStr (jsFieldString (Json.obj [("name", Json.str "Great Sword"),
          ("type", Json.str "equipment")]) "type") ∈ knownSubtypes
      then toLowerStr (jsFieldString (Json.obj [("name", Json.str "Great Sword"),
          ("type", Json.str "equipment")]) "type")
      else keywordCategory (toLowerStr (jsFieldString (Json.obj [("name", Json.str "Great Sword"),
          ("type", Json.str "equipment")]) "name")).data) ∧
    (hasSub ("sword").data (toLowerStr (jsFieldString (Json.obj [("name", Json.str "Great Sword"),
        ("type", Json.str "equipment")]) "name")).data = true →
      toLowerStr (jsFieldString (Json.obj [("name", Json.str "Great Sword"),
        ("type", Json.str "equipment")]) "type") ∉ knownSubtypes →
      detectItemCategory (Json.obj [("name", Json.str "Great Sword"),
        ("type", Json.str "equipment")]) = "weapon") :=
  c6_category_order (Json.obj [("name", Json.str "Great Sword"),
    ("type", Json.str "equipment")]) (by decide)

/-! ## Claim C1 -/

/-- C1 counterexample: loading an ndjson pack and immediately saving the
unmodified records is NOT byte-equivalent to the original content — the
serializer is compact, so the whitespace after the colon in the original
line is lost. -/
theorem c1_counterexample :
    loadPackDocs ("packs/items.db") ("\x7b\"a\": 1\x7d") =
      Except.ok ([Json.obj [("a", Json.num 1)]], PackFormat.ndjson) ∧
    savePackDocs [Json.obj [("a", Json.num 1)]] PackFormat.ndjson ≠ ("\x7b\"a\": 1\x7d") := by
  constructor
  · decide
  · decide

/-- C1 (amended): the round trip preserves records and the detected format,
not bytes — saving any record list in a format and reloading the produced
content yields exactly the same records and the same format (for ndjson,
provided the first record is not a JSON array, which no object record
is). -/
theorem c1_round_trip (docs : List Json) (fmt : PackFormat) (path : String)
    (h : fmt = PackFormat.ndjson → ndjsonHeadSafe docs) :
    loadPackDocs path (savePackDocs docs fmt) = Except.ok (docs, fmt) :=
  loadPack_savePack docs fmt path h

/-- C1 witness: the round trip applied to a one-object ndjson pack. -/
theorem c1_round_trip_witness :
    (PackFormat.ndjson = PackFormat.ndjson →
      ndjsonHeadSafe [Json.obj [("name", Json.str "Torch")]]) ∧
    loadPackDocs ("packs/items.db")
        (savePackDocs [Json.obj [("name", Json.str "Torch")]] PackFormat.ndjson) =
      Except.ok ([Json.obj [("name", Json.str "Torch")]], PackFormat.ndjson) :=
  ⟨fun _ => True.intro,
   c1_round_trip [Json.obj [("name", Json.str "Torch")]] PackFormat.ndjson
     ("packs/items.db") (fun _ => True.intro)⟩

/-! ## Claim C5 -/

/-- C5 counterexample: the reported line number counts only non-empty
lines, not positions in the file.  In a pack whose second line is blank
and whose third line is malformed, the loader reports line 2, while the
malformed line sits at file position 3 (index 2 of the raw line split). -/
theorem c5_counterexample :
    loadPackDocs ("packs/spells.db") ("\x7b\"a\":1\x7d\n\n\x7b") =
      Except.error (LoadError.lineParse ("spells.db") 2) ∧
    (splitOnChar '\n' ("\x7b\"a\":1\x7d\n\n\x7b").data)[1]? = some [] ∧
    (splitOnChar '\n' ("\x7b\"a\":1\x7d\n\n\x7b").data)[2]? = some ['\x7b'] := by
  refine ⟨by decide, by decide, by decide⟩

/-- C5 (amended): on a line-delimited pack whose trimmed, blank-filtered
line list splits as `good ++ bad :: rest` with every `good` line parsing
and `bad` malformed, loading fails with a parse error naming the file
basename and the 1-based position of the malformed line among the
non-empty lines, `good.length + 1` — not its position in the file. -/
theorem c5_line_error (path raw : String) (good : List (List Char))
    (bad : List Char) (rest : List (List Char))
    (h1 : trimCs raw.data ≠ [])
    (h2 : (trimCs raw.data).head? ≠ some '[')
    (h3 : ((splitLines (trimCs raw.data)).map trimCs).filter (fun l => !l.isEmpty) =
      good ++ bad :: rest)
    (h4 : ∀ l ∈ good, (jsonParse l).isSome)
    (h5 : jsonParse bad = none) :
    loadPackDocs path raw =
      Except.error (LoadError.lineParse (basename path) (good.length + 1)) :=
  loadPackDocs_line_error path raw good bad rest h1 h2 h3 h4 h5

/-- C5 witness: the line-error theorem applied to a two-line pack whose
second non-empty line is malformed. -/
theorem c5_line_error_witness :
    (trimCs ("\x7b\"a\":1\x7d\n\n\x7b" : String).data ≠ [] ∧
     (trimCs ("\x7b\"a\":1\x7d\n\n\x7b" : String).data).head? ≠ some '[' ∧
     ((splitLines (trimCs ("\x7b\"a\":1\x7d\n\n\x7b" : String).data)).map trimCs).filter
        (fun l => !l.isEmpty) =
       [("\x7b\"a\":1\x7d" : String).data] ++ ['\x7b'] :: [] ∧
     (∀ l ∈ [("\x7b\"a\":1\x7d" : String).data], (jsonParse l).isSome) ∧
     jsonParse ['\x7b'] = none) ∧
    loadPackDocs ("packs/spells.db") ("\x7b\"a\":1\x7d\n\n\x7b") =
      Except.error (LoadError.lineParse (basename ("packs/spells.db"))
        ([("\x7b\"a\":1\x7d" : String).data].length + 1)) :=
  ⟨⟨by decide, by decide, by decide, by decide, by decide⟩,
   c5_line_error ("packs/spells.db") ("\x7b\"a\":1\x7d\n\n\x7b")
     [("\x7b\"a\":1\x7d" : String).data] ['\x7b'] []
     (by decide) (by decide) (by decide) (by decide) (by decide)⟩

end DragonbaneIcons
